import Mathlib

/-!
# clairctl report aggregation (`clair/report.go`)

A shallow embedding of `clair/report.go`: `invertedPriorities`,
`vulnerabiliesCounts` with `Total`, `Count` and `RelativeCount`,
`AllVulnerabilities`, `vulnerabilities`, `sortedVulnerabilities` and the
control flow of `ReportAsHTML` over its collaborators.

Go maps are association lists kept in insertion order with unique keys
(`mapGet`, `mapSet`); slices are lists; Go `int` is `Int` (a count never exceeds
the number of map entries, so no wrap-around can occur); `float64` is the
IEEE 754 binary64 format with round-to-nearest-even, carried as exact
rationals `mant * 2 ^ expo`.
-/

namespace Clair

/-! ## Data model -/

/-- The Go type `types.Priority`, a defined string type. -/
abbrev Priority := String

/-- Modelled from the spec: the variable `types.Priorities` of the imported
package `github.com/coreos/clair/utils/types` is not part of this repository;
it is the canonical ascending order
Unknown < Negligible < Low < Medium < High < Critical < Defcon1. -/
def Priorities : List Priority :=
  ["Unknown", "Negligible", "Low", "Medium", "High", "Critical", "Defcon1"]

/-- The fields of `v1.Vulnerability` (declared in the imported package
`github.com/coreos/clair/api/v1`) that are plain strings; the report code reads
`Name` and `Severity` and copies the value whole. -/
structure Vulnerability where
  Name : String
  NamespaceName : String
  Description : String
  Link : String
  Severity : String
  FixedBy : String
deriving DecidableEq, Repr

/-- The struct `v1.Feature`: the report code reads `Name`, `Version` and
`Vulnerabilities` and copies the other fields unchanged. -/
structure Feature where
  Name : String
  NamespaceName : String
  VersionFormat : String
  Version : String
  Vulnerabilities : List Vulnerability
  AddedBy : String
deriving DecidableEq, Repr

/-- The struct `v1.Layer`, of which the report code reads `Features`. -/
structure Layer where
  Name : String
  NamespaceName : String
  Features : List Feature
deriving DecidableEq, Repr

/-- The struct `v1.LayerEnvelope`; the pointer `Layer` is dereferenced without a
nil test by every helper, so it is carried as a plain value. -/
structure LayerEnvelope where
  Layer : Layer
deriving DecidableEq, Repr

/-- The struct `ImageAnalysis` handed to every template helper. -/
structure ImageAnalysis where
  Registry : String
  ImageName : String
  Tag : String
  Layers : List LayerEnvelope
deriving DecidableEq, Repr

/-! ## Go maps as association lists -/

/-- Lookup `m[k]` with presence flag: the first entry with key `k`. -/
def mapGet {β : Type} (m : List (String × β)) (k : String) : Option β :=
  match m with
  | [] => none
  | (k', v) :: rest => if k' = k then some v else mapGet rest k

/-- Assignment `m[k] = v`: overwrite in place, or insert a fresh key. -/
def mapSet {β : Type} (m : List (String × β)) (k : String) (v : β) : List (String × β) :=
  match m with
  | [] => [(k, v)]
  | (k', v') :: rest => if k' = k then (k', v) :: rest else (k', v') :: mapSet rest k v

/-! ## `invertedPriorities` -/

/-- The loop `for i, j := 0, len-1; i <= j; i, j = i+1, j-1` of
`invertedPriorities`, with the body `ip[i], ip[j] = P[j], P[i]`; `fuel` bounds
the number of iterations. -/
def invertLoop (P : List Priority) : Nat → Int → Int → List Priority → List Priority
  | 0, _, _, ip => ip
  | fuel + 1, i, j, ip =>
    if i ≤ j then
      invertLoop P fuel (i + 1) (j - 1)
        ((ip.set i.toNat (P.getD j.toNat "")).set j.toNat (P.getD i.toNat ""))
    else ip

/-- The body of `invertedPriorities` over an arbitrary priority table `P`:
`ip := make([]types.Priority, len(P))` followed by the swap loop. -/
def invertedPrioritiesOf (P : List Priority) : List Priority :=
  invertLoop P (P.length + 1) 0 ((P.length : Int) - 1) (List.replicate P.length "")

/-- The function `invertedPriorities()` on the table `types.Priorities`. -/
def invertedPriorities : List Priority := invertedPrioritiesOf Priorities

/-! ## `float64` -/

/-- The values of the IEEE 754 binary64 format. `finite neg mant expo` is
`(-1) ^ neg * mant * 2 ^ expo` in canonical form: a zero has `mant = 0` and
`expo = 0`; a normal number has `2 ^ 52 ≤ mant < 2 ^ 53` and
`-1074 ≤ expo ≤ 971`; a subnormal number has `mant < 2 ^ 52` and `expo = -1074`. -/
inductive Float64 where
  | finite (neg : Bool) (mant : Nat) (expo : Int)
  | inf (neg : Bool)
  | nan
deriving DecidableEq, Repr

namespace Float64

/-- The halving loop behind `log2`; `fuel` bounds the number of halvings. -/
def log2Loop : Nat → Nat → Nat
  | 0, _ => 0
  | fuel + 1, n => if n < 2 then 0 else log2Loop fuel (n / 2) + 1

/-- The position of the leading bit of `n`: the floor of its binary logarithm. -/
def log2 (n : Nat) : Nat := log2Loop n n

/-- The binary64 value nearest to the rational `p / q` (`q > 0`) with the given
sign, ties to even: the result of every correctly rounded operation. -/
def roundNearest (neg : Bool) (p q : Nat) : Float64 :=
  if p = 0 then finite neg 0 0
  else
    let e0 : Int := (log2 p : Int) - (log2 q : Int)
    let e : Int := if q * 2 ^ e0.toNat ≤ p * 2 ^ (-e0).toNat then e0 else e0 - 1
    let k : Int := max e (-1022) - 52
    let num : Nat := p * 2 ^ (-k).toNat
    let den : Nat := q * 2 ^ k.toNat
    let m : Nat := num / den
    let r : Nat := num % den
    let m1 : Nat := if den < 2 * r ∨ (2 * r = den ∧ m % 2 = 1) then m + 1 else m
    if m1 = 0 then finite neg 0 0
    else if m1 = 2 ^ 53 then
      (if 971 < k + 1 then inf neg else finite neg (2 ^ 52) (k + 1))
    else if 971 < k then inf neg
    else finite neg m1 k

/-- The conversion `float64(n)` of an integer. -/
def ofInt (n : Int) : Float64 := roundNearest (decide (n < 0)) n.natAbs 1

/-- The product `x * y`. -/
def mul : Float64 → Float64 → Float64
  | nan, _ => nan
  | _, nan => nan
  | inf s, inf t => inf (xor s t)
  | inf s, finite t m _ => if m = 0 then nan else inf (xor s t)
  | finite s m _, inf t => if m = 0 then nan else inf (xor s t)
  | finite s m e, finite t n f =>
    roundNearest (xor s t) (m * n * 2 ^ (e + f).toNat) (2 ^ (-(e + f)).toNat)

/-- The quotient `x / y`; a division by zero gives an infinity or a NaN. -/
def div : Float64 → Float64 → Float64
  | nan, _ => nan
  | _, nan => nan
  | inf _, inf _ => nan
  | inf s, finite t _ _ => inf (xor s t)
  | finite s _ _, inf t => finite (xor s t) 0 0
  | finite s m e, finite t n f =>
    if n = 0 then (if m = 0 then nan else inf (xor s t))
    else roundNearest (xor s t) (m * 2 ^ (e - f).toNat) (n * 2 ^ (f - e).toNat)

/-- The function `math.Ceil`: the least integer value not below `x`. -/
def ceil : Float64 → Float64
  | nan => nan
  | inf s => inf s
  | finite s m e =>
    if 0 ≤ e then finite s m e
    else
      let d : Nat := 2 ^ (-e).toNat
      if s then roundNearest true (m / d) 1
      else roundNearest false ((m + d - 1) / d) 1

end Float64

/-! ## `vulnerabiliesCounts` -/

/-- The Go type `vulnerabiliesCounts`, a `map[types.Priority]int`. -/
abbrev vulnerabiliesCounts := List (Priority × Int)

/-- The method `Total`: the sum of all stored counts. -/
def vulnerabiliesCounts.Total (v : vulnerabiliesCounts) : Int :=
  v.foldl (fun c e => c + e.2) 0

/-- The method `Count`: the stored count, zero for an absent key. -/
def vulnerabiliesCounts.Count (v : vulnerabiliesCounts) (severity : String) : Int :=
  (mapGet v severity).getD 0

/-- The method `RelativeCount`:
`math.Ceil(float64(count) / float64(v.Total()) * 100 * 100) / 100`. -/
def vulnerabiliesCounts.RelativeCount (v : vulnerabiliesCounts) (severity : String) :
    Float64 :=
  let count := (mapGet v severity).getD 0
  let result :=
    Float64.mul (Float64.div (Float64.ofInt count) (Float64.ofInt v.Total)) (Float64.ofInt 100)
  Float64.div (Float64.ceil (Float64.mul result (Float64.ofInt 100))) (Float64.ofInt 100)

/-! ## `AllVulnerabilities` -/

/-- The body of the first loop of `AllVulnerabilities` for one vulnerability:
`if _, exist := vulnerabilities[v.Name]; !exist { vulnerabilities[v.Name] = v.Severity }`. -/
def recordFirst (m : List (String × String)) (v : Vulnerability) : List (String × String) :=
  match mapGet m v.Name with
  | some _ => m
  | none => mapSet m v.Name v.Severity

/-- The first loop nest of `AllVulnerabilities`: the name to severity map. -/
def collectSeverities (fs : List Feature) : List (String × String) :=
  fs.foldl (fun m f => f.Vulnerabilities.foldl recordFirst m) []

/-- The statement `result[p]++`. -/
def increment (result : vulnerabiliesCounts) (p : Priority) : vulnerabiliesCounts :=
  mapSet result p ((mapGet result p).getD 0 + 1)

/-- The inner loop of the second loop nest for one priority `p`, ranging over
the entries of the name to severity map. -/
def countPriority (entries : List (String × String)) (result : vulnerabiliesCounts)
    (p : Priority) : vulnerabiliesCounts :=
  entries.foldl (fun r e => if e.2 = p then increment r p else r) result

/-- The second loop nest of `AllVulnerabilities`. -/
def countAll (ps : List Priority) (entries : List (String × String)) : vulnerabiliesCounts :=
  ps.foldl (countPriority entries) []

/-- The function `AllVulnerabilities`; the method `MostRecentLayer` of
`ImageAnalysis` is declared outside `report.go` and is a parameter. -/
def AllVulnerabilities (MostRecentLayer : ImageAnalysis → LayerEnvelope)
    (imageAnalysis : ImageAnalysis) : vulnerabiliesCounts :=
  let l := MostRecentLayer imageAnalysis
  countAll invertedPriorities (collectSeverities l.Layer.Features)

/-! ## `sortedVulnerabilities` -/

/-- The inner loop of `sortedVulnerabilities` for one priority `p`: append the
vulnerabilities of severity `p` in their order. -/
def appendPriority (vs : List Vulnerability) (acc : List Vulnerability) (p : Priority) :
    List Vulnerability :=
  vs.foldl (fun a v => if v.Severity = p then a ++ [v] else a) acc

/-- The reordered vulnerability list built for one feature. -/
def reorder (vs : List Vulnerability) : List Vulnerability :=
  invertedPriorities.foldl (appendPriority vs) []

/-- The body of the feature loop of `sortedVulnerabilities`. -/
def sortStep (features : List Feature) (f : Feature) : List Feature :=
  if f.Vulnerabilities.length > 0 then
    features ++ [{ f with Vulnerabilities := reorder f.Vulnerabilities }]
  else features

/-- The function `sortedVulnerabilities`. -/
def sortedVulnerabilities (MostRecentLayer : ImageAnalysis → LayerEnvelope)
    (imageAnalysis : ImageAnalysis) : List Feature :=
  let l := MostRecentLayer imageAnalysis
  l.Layer.Features.foldl sortStep []

/-! ## `invertedPriorities` with the table as state -/

/-- The two slices in reach of the loop of `invertedPriorities`: the
package-level table `types.Priorities` and the local slice `ip`. -/
structure InvertState where
  Priorities : List Priority
  ip : List Priority
deriving DecidableEq, Repr

/-- The loop of `invertedPriorities` run on both slices: the body
`ip[i], ip[j] = types.Priorities[j], types.Priorities[i]` assigns to `ip` only. -/
def invertRun : Nat → Int → Int → InvertState → InvertState
  | 0, _, _, s => s
  | fuel + 1, i, j, s =>
    if i ≤ j then
      let ip := (s.ip.set i.toNat (s.Priorities.getD j.toNat "")).set j.toNat
        (s.Priorities.getD i.toNat "")
      invertRun fuel (i + 1) (j - 1) { s with ip := ip }
    else s

/-! ## `vulnerabilities` -/

/-- The struct `vulnerabilityWithFeature`: the embedded `v1.Vulnerability` and
the label of the feature that owns it. -/
structure vulnerabilityWithFeature where
  Vulnerability : Vulnerability
  Feature : String
deriving DecidableEq, Repr

/-- The body of the inner loop of `vulnerabilities`:
`result[sev] = append(result[sev], vulnerabilityWithFeature{v, f.Name + ":" + f.Version})`. -/
def groupStep (f : Feature) (result : List (Priority × List vulnerabilityWithFeature))
    (v : Vulnerability) : List (Priority × List vulnerabilityWithFeature) :=
  mapSet result v.Severity
    ((mapGet result v.Severity).getD [] ++
      [{ Vulnerability := v, Feature := f.Name ++ ":" ++ f.Version }])

/-- The function `vulnerabilities`. -/
def vulnerabilities (MostRecentLayer : ImageAnalysis → LayerEnvelope)
    (imageAnalysis : ImageAnalysis) : List (Priority × List vulnerabilityWithFeature) :=
  let l := MostRecentLayer imageAnalysis
  l.Layer.Features.foldl (fun result f => f.Vulnerabilities.foldl (groupStep f) result) []

/-! ## `ReportAsHTML` -/

/-- The calls `ReportAsHTML` makes on its collaborators, in order. A helper of
the function map runs only when the template engine calls it during `Execute`;
those calls are reported by the engine and recorded as `helper`. -/
inductive Call where
  | asset (name : String)
  | parse (name : String) (funcs : List String) (text : String)
  | execute
  | helper (name : String)
deriving DecidableEq, Repr

/-- The result of `ReportAsHTML`: the returned pair `(string, error)`, an error
being carried by its message, or the panic raised by `template.Must`. -/
inductive Outcome where
  | returned (text : String) (err : Option String)
  | panicked (msg : String)
deriving DecidableEq, Repr

/-- What `templte.Execute(&doc, analyzes)` leaves behind: the text written to
the buffer `doc`, the helpers the engine called, and the error, if any. -/
structure Execution where
  written : String
  helpers : List String
  err : Option String
deriving DecidableEq, Repr

/-- The collaborators of `ReportAsHTML`, all declared outside `report.go`: the
generated function `Asset`, and parsing and execution of `text/template`. -/
structure Collaborators (T : Type) where
  Asset : String → Except String String
  Parse : String → List String → String → Except String T
  Execute : T → ImageAnalysis → Execution

/-- The function `ReportAsHTML`, returning its outcome and the calls it made. -/
def ReportAsHTML {T : Type} (c : Collaborators T) (analyzes : ImageAnalysis) :
    Outcome × List Call :=
  match c.Asset "templates/analysis-template.html" with
  | .error err =>
    (.returned "" (some ("accessing template: " ++ err)),
      [.asset "templates/analysis-template.html"])
  | .ok asset =>
    let funcs := ["vulnerabilities", "allVulnerabilities", "sortedVulnerabilities"]
    match c.Parse "analysis-template" funcs asset with
    | .error err =>
      (.panicked err,
        [.asset "templates/analysis-template.html", .parse "analysis-template" funcs asset])
    | .ok templte =>
      let run := c.Execute templte analyzes
      let calls := [.asset "templates/analysis-template.html",
        .parse "analysis-template" funcs asset, .execute] ++ run.helpers.map Call.helper
      match run.err with
      | some err => (.returned "" (some ("rendering HTML report: " ++ err)), calls)
      | none => (.returned run.written none, calls)

/-! ## Specification-side vocabulary -/

/-- The rank of a severity in the canonical ascending order: its index in
`Priorities` (the length of the table for a string that is no tier). -/
def rank (s : String) : Nat := Priorities.indexOf s

/-- The tier-major selection: for each priority of `ps` in turn, the
vulnerabilities of that severity in their original order. -/
def tierMajor (ps : List Priority) (vs : List Vulnerability) : List Vulnerability :=
  match ps with
  | [] => []
  | p :: rest => vs.filter (fun v => v.Severity = p) ++ tierMajor rest vs

/-- A feature with its vulnerability list blanked: everything of a feature
except the vulnerability list. -/
def withoutVulnerabilities (f : Feature) : Feature := { f with Vulnerabilities := [] }

/-- The features of a layer that have at least one vulnerability, in order. -/
def affectedFeatures (fs : List Feature) : List Feature :=
  fs.filter (fun f => 0 < f.Vulnerabilities.length)

/-- All vulnerabilities of a layer in scanning order: features in layer order,
each feature's vulnerabilities in list order. -/
def layerVulnerabilities (fs : List Feature) : List Vulnerability :=
  match fs with
  | [] => []
  | f :: rest => f.Vulnerabilities ++ layerVulnerabilities rest

/-- The severity of the first occurrence of a name in a scan, if any. -/
def firstSeverity (vs : List Vulnerability) (name : String) : Option String :=
  match vs with
  | [] => none
  | v :: rest => if v.Name = name then some v.Severity else firstSeverity rest name

/-- A float64 value is finite when it is neither an infinity nor a NaN. -/
def Float64.isFinite : Float64 → Bool
  | .finite _ _ _ => true
  | .inf _ => false
  | .nan => false

/-- The exact rational value of a finite float64 (0 for an infinity or a NaN). -/
def Float64.toRat : Float64 → ℚ
  | .finite neg m e => (if neg then -1 else 1) * (m : ℚ) * (2 : ℚ) ^ e
  | .inf _ => 0
  | .nan => 0

/-- All vulnerabilities of a layer in scanning order, each paired with the
label `name:version` of its owning feature. -/
def labelledVulnerabilities (fs : List Feature) : List vulnerabilityWithFeature :=
  match fs with
  | [] => []
  | f :: rest =>
    f.Vulnerabilities.map
      (fun v => { Vulnerability := v, Feature := f.Name ++ ":" ++ f.Version }) ++
      labelledVulnerabilities rest

/-- The update of `vulnerabilities` for one labelled vulnerability:
`result[sev] = append(result[sev], x)`. -/
def groupOne (result : List (Priority × List vulnerabilityWithFeature))
    (x : vulnerabilityWithFeature) : List (Priority × List vulnerabilityWithFeature) :=
  mapSet result x.Vulnerability.Severity
    ((mapGet result x.Vulnerability.Severity).getD [] ++ [x])

/-- A numeric code of a string: its characters read as the digits of a number
in base `2 ^ 21`. Equal strings have equal codes, so names with pairwise
different codes are pairwise different. -/
def nameCode (s : String) : Nat := s.data.foldl (fun n c => n * 2097152 + c.toNat) 0

/-! ## Concrete inputs -/

/-- A vulnerability with the given name and severity and empty metadata. -/
def mkVuln (name severity : String) : Vulnerability :=
  { Name := name, NamespaceName := "", Description := "", Link := "",
    Severity := severity, FixedBy := "" }

/-- A feature with the given name, version and vulnerabilities. -/
def mkFeature (name version : String) (vs : List Vulnerability) : Feature :=
  { Name := name, NamespaceName := "", VersionFormat := "dpkg", Version := version,
    Vulnerabilities := vs, AddedBy := "" }

/-- An analysis with a single layer holding the given features. -/
def mkAnalysis (fs : List Feature) : ImageAnalysis :=
  { Registry := "registry", ImageName := "image", Tag := "latest",
    Layers := [{ Layer := { Name := "layer", NamespaceName := "debian:8", Features := fs } }] }

/-- An accessor for the most recent layer used on the concrete inputs: the last
layer of the sequence (an empty layer when there is none). -/
def lastLayer (a : ImageAnalysis) : LayerEnvelope :=
  a.Layers.getLastD { Layer := { Name := "", NamespaceName := "", Features := [] } }

/-- The end-to-end scenario: `openssl:1.0.1` with CVE-A (High) and CVE-B (Low),
then `bash:4.3` with CVE-A (Critical). -/
def scenario : ImageAnalysis :=
  mkAnalysis
    [ mkFeature "openssl" "1.0.1" [mkVuln "CVE-A" "High", mkVuln "CVE-B" "Low"],
      mkFeature "bash" "4.3" [mkVuln "CVE-A" "Critical"] ]

/-- A layer mixing tiers out of order, a repeated name, a feature without
vulnerabilities and a severity string that is no canonical tier. -/
def mixed : ImageAnalysis :=
  mkAnalysis
    [ mkFeature "zlib" "1.2.8" [],
      mkFeature "openssl" "1.0.1"
        [mkVuln "CVE-1" "Low", mkVuln "CVE-2" "Critical", mkVuln "CVE-3" "Low",
         mkVuln "CVE-2" "High", mkVuln "CVE-4" "Critical"],
      mkFeature "bash" "4.3" [mkVuln "CVE-5" "Bogus"] ]

/-- Two features that both carry CVE-X, first as High and then as Low. -/
def twoSeverities : ImageAnalysis :=
  mkAnalysis
    [ mkFeature "openssl" "1.0.1" [mkVuln "CVE-X" "High"],
      mkFeature "bash" "4.3" [mkVuln "CVE-X" "Low"] ]

/-- The layer `twoSeverities` with its two features swapped: CVE-X occurs first
as Low and then as High. -/
def twoSeveritiesSwapped : ImageAnalysis :=
  mkAnalysis
    [ mkFeature "bash" "4.3" [mkVuln "CVE-X" "Low"],
      mkFeature "openssl" "1.0.1" [mkVuln "CVE-X" "High"] ]

/-- An analysis whose only layer has no features. -/
def noFeatures : ImageAnalysis := mkAnalysis []

/-- A layer whose single feature carries one vulnerability, of a severity
string that is no canonical tier. -/
def unknownOnly : ImageAnalysis :=
  mkAnalysis [mkFeature "bash" "4.3" [mkVuln "CVE-5" "Bogus"]]


/-- A layer with twenty distinct vulnerability names, eleven of severity High
and nine of severity Low. -/
def elevenOfTwenty : ImageAnalysis :=
  mkAnalysis
    [ mkFeature "openssl" "1.0.1"
       [mkVuln "CVE-1" "High", mkVuln "CVE-2" "High", mkVuln "CVE-3" "High", mkVuln "CVE-4" "High",
        mkVuln "CVE-5" "High", mkVuln "CVE-6" "High", mkVuln "CVE-7" "High", mkVuln "CVE-8" "High",
        mkVuln "CVE-9" "High", mkVuln "CVE-10" "High", mkVuln "CVE-11" "High", mkVuln "CVE-12" "Low",
        mkVuln "CVE-13" "Low", mkVuln "CVE-14" "Low", mkVuln "CVE-15" "Low", mkVuln "CVE-16" "Low",
        mkVuln "CVE-17" "Low", mkVuln "CVE-18" "Low", mkVuln "CVE-19" "Low", mkVuln "CVE-20" "Low"] ]

/-- Collaborators whose asset lookup fails, with the message the generated
`Asset` function uses for an unknown name. -/
def missingAsset : Collaborators Unit :=
  { Asset := fun name => .error ("Asset " ++ name ++ " not found"),
    Parse := fun _ _ _ => .ok (),
    Execute := fun _ _ => { written := "", helpers := [], err := none } }

/-- Collaborators whose template parses and whose execution fails with "boom"
after writing "<html>" and calling the helper `allVulnerabilities`. -/
def failingExecute : Collaborators Unit :=
  { Asset := fun _ => .ok "\x7b\x7b . \x7d\x7d",
    Parse := fun _ _ _ => .ok (),
    Execute := fun _ _ =>
      { written := "<html>", helpers := ["allVulnerabilities"], err := some "boom" } }

/-- A layer with two hundred distinct vulnerability names in one feature: seven
each of severity Unknown, Negligible and Low, fourteen of severity Medium and
fifty-five each of severity High, Critical and Defcon1. -/
def twoHundred : ImageAnalysis :=
  mkAnalysis
    [ mkFeature "openssl" "1.0.1"
       [mkVuln "CVE-001" "Unknown", mkVuln "CVE-002" "Unknown", mkVuln "CVE-003" "Unknown",
        mkVuln "CVE-004" "Unknown", mkVuln "CVE-005" "Unknown", mkVuln "CVE-006" "Unknown",
        mkVuln "CVE-007" "Unknown", mkVuln "CVE-008" "Negligible", mkVuln "CVE-009" "Negligible",
        mkVuln "CVE-010" "Negligible", mkVuln "CVE-011" "Negligible", mkVuln "CVE-012" "Negligible",
        mkVuln "CVE-013" "Negligible", mkVuln "CVE-014" "Negligible", mkVuln "CVE-015" "Low",
        mkVuln "CVE-016" "Low", mkVuln "CVE-017" "Low", mkVuln "CVE-018" "Low",
        mkVuln "CVE-019" "Low", mkVuln "CVE-020" "Low", mkVuln "CVE-021" "Low",
        mkVuln "CVE-022" "Medium", mkVuln "CVE-023" "Medium", mkVuln "CVE-024" "Medium",
        mkVuln "CVE-025" "Medium", mkVuln "CVE-026" "Medium", mkVuln "CVE-027" "Medium",
        mkVuln "CVE-028" "Medium", mkVuln "CVE-029" "Medium", mkVuln "CVE-030" "Medium",
        mkVuln "CVE-031" "Medium", mkVuln "CVE-032" "Medium", mkVuln "CVE-033" "Medium",
        mkVuln "CVE-034" "Medium", mkVuln "CVE-035" "Medium", mkVuln "CVE-036" "High",
        mkVuln "CVE-037" "High", mkVuln "CVE-038" "High", mkVuln "CVE-039" "High",
        mkVuln "CVE-040" "High", mkVuln "CVE-041" "High", mkVuln "CVE-042" "High",
        mkVuln "CVE-043" "High", mkVuln "CVE-044" "High", mkVuln "CVE-045" "High",
        mkVuln "CVE-046" "High", mkVuln "CVE-047" "High", mkVuln "CVE-048" "High",
        mkVuln "CVE-049" "High", mkVuln "CVE-050" "High", mkVuln "CVE-051" "High",
        mkVuln "CVE-052" "High", mkVuln "CVE-053" "High", mkVuln "CVE-054" "High",
        mkVuln "CVE-055" "High", mkVuln "CVE-056" "High", mkVuln "CVE-057" "High",
        mkVuln "CVE-058" "High", mkVuln "CVE-059" "High", mkVuln "CVE-060" "High",
        mkVuln "CVE-061" "High", mkVuln "CVE-062" "High", mkVuln "CVE-063" "High",
        mkVuln "CVE-064" "High", mkVuln "CVE-065" "High", mkVuln "CVE-066" "High",
        mkVuln "CVE-067" "High", mkVuln "CVE-068" "High", mkVuln "CVE-069" "High",
        mkVuln "CVE-070" "High", mkVuln "CVE-071" "High", mkVuln "CVE-072" "High",
        mkVuln "CVE-073" "High", mkVuln "CVE-074" "High", mkVuln "CVE-075" "High",
        mkVuln "CVE-076" "High", mkVuln "CVE-077" "High", mkVuln "CVE-078" "High",
        mkVuln "CVE-079" "High", mkVuln "CVE-080" "High", mkVuln "CVE-081" "High",
        mkVuln "CVE-082" "High", mkVuln "CVE-083" "High", mkVuln "CVE-084" "High",
        mkVuln "CVE-085" "High", mkVuln "CVE-086" "High", mkVuln "CVE-087" "High",
        mkVuln "CVE-088" "High", mkVuln "CVE-089" "High", mkVuln "CVE-090" "High",
        mkVuln "CVE-091" "Critical", mkVuln "CVE-092" "Critical", mkVuln "CVE-093" "Critical",
        mkVuln "CVE-094" "Critical", mkVuln "CVE-095" "Critical", mkVuln "CVE-096" "Critical",
        mkVuln "CVE-097" "Critical", mkVuln "CVE-098" "Critical", mkVuln "CVE-099" "Critical",
        mkVuln "CVE-100" "Critical", mkVuln "CVE-101" "Critical", mkVuln "CVE-102" "Critical",
        mkVuln "CVE-103" "Critical", mkVuln "CVE-104" "Critical", mkVuln "CVE-105" "Critical",
        mkVuln "CVE-106" "Critical", mkVuln "CVE-107" "Critical", mkVuln "CVE-108" "Critical",
        mkVuln "CVE-109" "Critical", mkVuln "CVE-110" "Critical", mkVuln "CVE-111" "Critical",
        mkVuln "CVE-112" "Critical", mkVuln "CVE-113" "Critical", mkVuln "CVE-114" "Critical",
        mkVuln "CVE-115" "Critical", mkVuln "CVE-116" "Critical", mkVuln "CVE-117" "Critical",
        mkVuln "CVE-118" "Critical", mkVuln "CVE-119" "Critical", mkVuln "CVE-120" "Critical",
        mkVuln "CVE-121" "Critical", mkVuln "CVE-122" "Critical", mkVuln "CVE-123" "Critical",
        mkVuln "CVE-124" "Critical", mkVuln "CVE-125" "Critical", mkVuln "CVE-126" "Critical",
        mkVuln "CVE-127" "Critical", mkVuln "CVE-128" "Critical", mkVuln "CVE-129" "Critical",
        mkVuln "CVE-130" "Critical", mkVuln "CVE-131" "Critical", mkVuln "CVE-132" "Critical",
        mkVuln "CVE-133" "Critical", mkVuln "CVE-134" "Critical", mkVuln "CVE-135" "Critical",
        mkVuln "CVE-136" "Critical", mkVuln "CVE-137" "Critical", mkVuln "CVE-138" "Critical",
        mkVuln "CVE-139" "Critical", mkVuln "CVE-140" "Critical", mkVuln "CVE-141" "Critical",
        mkVuln "CVE-142" "Critical", mkVuln "CVE-143" "Critical", mkVuln "CVE-144" "Critical",
        mkVuln "CVE-145" "Critical", mkVuln "CVE-146" "Defcon1", mkVuln "CVE-147" "Defcon1",
        mkVuln "CVE-148" "Defcon1", mkVuln "CVE-149" "Defcon1", mkVuln "CVE-150" "Defcon1",
        mkVuln "CVE-151" "Defcon1", mkVuln "CVE-152" "Defcon1", mkVuln "CVE-153" "Defcon1",
        mkVuln "CVE-154" "Defcon1", mkVuln "CVE-155" "Defcon1", mkVuln "CVE-156" "Defcon1",
        mkVuln "CVE-157" "Defcon1", mkVuln "CVE-158" "Defcon1", mkVuln "CVE-159" "Defcon1",
        mkVuln "CVE-160" "Defcon1", mkVuln "CVE-161" "Defcon1", mkVuln "CVE-162" "Defcon1",
        mkVuln "CVE-163" "Defcon1", mkVuln "CVE-164" "Defcon1", mkVuln "CVE-165" "Defcon1",
        mkVuln "CVE-166" "Defcon1", mkVuln "CVE-167" "Defcon1", mkVuln "CVE-168" "Defcon1",
        mkVuln "CVE-169" "Defcon1", mkVuln "CVE-170" "Defcon1", mkVuln "CVE-171" "Defcon1",
        mkVuln "CVE-172" "Defcon1", mkVuln "CVE-173" "Defcon1", mkVuln "CVE-174" "Defcon1",
        mkVuln "CVE-175" "Defcon1", mkVuln "CVE-176" "Defcon1", mkVuln "CVE-177" "Defcon1",
        mkVuln "CVE-178" "Defcon1", mkVuln "CVE-179" "Defcon1", mkVuln "CVE-180" "Defcon1",
        mkVuln "CVE-181" "Defcon1", mkVuln "CVE-182" "Defcon1", mkVuln "CVE-183" "Defcon1",
        mkVuln "CVE-184" "Defcon1", mkVuln "CVE-185" "Defcon1", mkVuln "CVE-186" "Defcon1",
        mkVuln "CVE-187" "Defcon1", mkVuln "CVE-188" "Defcon1", mkVuln "CVE-189" "Defcon1",
        mkVuln "CVE-190" "Defcon1", mkVuln "CVE-191" "Defcon1", mkVuln "CVE-192" "Defcon1",
        mkVuln "CVE-193" "Defcon1", mkVuln "CVE-194" "Defcon1", mkVuln "CVE-195" "Defcon1",
        mkVuln "CVE-196" "Defcon1", mkVuln "CVE-197" "Defcon1", mkVuln "CVE-198" "Defcon1",
        mkVuln "CVE-199" "Defcon1", mkVuln "CVE-200" "Defcon1"] ]

set_option maxRecDepth 100000

/-! ## `invertedPriorities` on the canonical table -/

theorem invertedPriorities_eq :
    invertedPriorities =
      ["Defcon1", "Critical", "High", "Medium", "Low", "Negligible", "Unknown"] := by
  decide

theorem invertedPriorities_nodup : invertedPriorities.Nodup := by
  rw [invertedPriorities_eq]; decide

theorem mem_invertedPriorities (p : Priority) : p ∈ invertedPriorities ↔ p ∈ Priorities := by
  rw [invertedPriorities_eq]
  simp only [Priorities, List.mem_cons, List.mem_singleton, List.not_mem_nil, or_false]
  tauto

/-! ## The loops of `sortedVulnerabilities` -/

theorem appendPriority_eq (vs acc : List Vulnerability) (p : Priority) :
    appendPriority vs acc p = acc ++ vs.filter (fun v => v.Severity = p) := by
  unfold appendPriority
  induction vs generalizing acc with
  | nil => simp
  | cons v vs ih =>
    rw [List.foldl_cons, ih]
    by_cases h : v.Severity = p
    · simp [h, List.filter_cons]
    · simp [h, List.filter_cons]

theorem foldl_appendPriority (ps : List Priority) (vs acc : List Vulnerability) :
    ps.foldl (appendPriority vs) acc = acc ++ tierMajor ps vs := by
  induction ps generalizing acc with
  | nil => simp [tierMajor]
  | cons p ps ih =>
    rw [List.foldl_cons, ih, appendPriority_eq, tierMajor, List.append_assoc]

theorem reorder_eq (vs : List Vulnerability) : reorder vs = tierMajor invertedPriorities vs := by
  unfold reorder
  rw [foldl_appendPriority, List.nil_append]

theorem foldl_sortStep (fs acc : List Feature) :
    fs.foldl sortStep acc =
      acc ++ (affectedFeatures fs).map
        (fun f => { f with Vulnerabilities := reorder f.Vulnerabilities }) := by
  induction fs generalizing acc with
  | nil => simp [affectedFeatures]
  | cons f fs ih =>
    rw [List.foldl_cons, ih]
    unfold sortStep affectedFeatures
    by_cases h : f.Vulnerabilities.length > 0
    · simp [h, List.filter_cons]
    · simp [h, List.filter_cons]

theorem sortedVulnerabilities_eq (mrl : ImageAnalysis → LayerEnvelope) (a : ImageAnalysis) :
    sortedVulnerabilities mrl a =
      (affectedFeatures (mrl a).Layer.Features).map
        (fun f => { f with Vulnerabilities := reorder f.Vulnerabilities }) := by
  unfold sortedVulnerabilities
  rw [foldl_sortStep, List.nil_append]

/-! ## Properties of the tier-major selection -/

theorem mem_tierMajor (ps : List Priority) (vs : List Vulnerability) (v : Vulnerability) :
    v ∈ tierMajor ps vs ↔ v ∈ vs ∧ v.Severity ∈ ps := by
  induction ps with
  | nil => simp [tierMajor]
  | cons p ps ih =>
    simp only [tierMajor, List.mem_append, List.mem_filter, decide_eq_true_eq, ih,
      List.mem_cons]
    tauto

theorem filter_tierMajor (ps : List Priority) (hps : ps.Nodup) (vs : List Vulnerability)
    (q : Priority) (hq : q ∈ ps) :
    (tierMajor ps vs).filter (fun v => v.Severity = q) = vs.filter (fun v => v.Severity = q) := by
  induction ps with
  | nil => simp at hq
  | cons p ps ih =>
    have hnd := List.nodup_cons.mp hps
    have hnone : ∀ (rs : List Priority), q ∉ rs →
        (tierMajor rs vs).filter (fun v => decide (v.Severity = q)) = [] := by
      intro rs hrs
      rw [List.filter_eq_nil_iff]
      intro v hv
      rw [mem_tierMajor] at hv
      simp only [decide_eq_true_eq]
      intro h
      exact hrs (h ▸ hv.2)
    rw [tierMajor, List.filter_append, List.filter_filter]
    by_cases hpq : q = p
    · subst hpq
      rw [hnone ps hnd.1, List.append_nil]
      congr 1
      funext v
      simp
    · have hq2 : q ∈ ps := by
        rcases List.mem_cons.mp hq with h | h
        · exact absurd h hpq
        · exact h
      rw [ih hnd.2 hq2]
      have : vs.filter (fun a => decide (a.Severity = q) && decide (a.Severity = p)) = [] := by
        rw [List.filter_eq_nil_iff]
        intro v _
        simp only [Bool.and_eq_true, decide_eq_true_eq, not_and]
        intro h1 h2
        exact hpq (h1.symm.trans h2)
      rw [this, List.nil_append]

theorem filter_append_perm (vs : List Vulnerability) (P Q : Vulnerability → Bool)
    (hdisj : ∀ v, P v = true → Q v = true → False) :
    List.Perm (vs.filter P ++ vs.filter Q) (vs.filter (fun v => P v || Q v)) := by
  induction vs with
  | nil => simp
  | cons v vs ih =>
    by_cases hP : P v = true
    · have hQ : Q v = false := by
        cases h : Q v
        · rfl
        · exact absurd h (fun h2 => hdisj v hP h2)
      simp only [List.filter_cons, hP, hQ, if_true, Bool.true_or, List.cons_append]
      exact List.Perm.cons v ih
    · have hP2 : P v = false := by simpa using hP
      by_cases hQ : Q v = true
      · simp only [List.filter_cons, hP2, hQ, if_true, Bool.false_or]
        exact List.perm_middle.trans (List.Perm.cons v ih)
      · have hQ2 : Q v = false := by simpa using hQ
        simp only [List.filter_cons, hP2, hQ2, Bool.false_or]
        exact ih

theorem tierMajor_perm (ps : List Priority) (hps : ps.Nodup) (vs : List Vulnerability) :
    List.Perm (tierMajor ps vs) (vs.filter (fun v => decide (v.Severity ∈ ps))) := by
  induction ps with
  | nil => simp [tierMajor]
  | cons p ps ih =>
    have hnd := List.nodup_cons.mp hps
    rw [tierMajor]
    refine ((List.Perm.append_left _ (ih hnd.2)).trans
      (filter_append_perm vs _ _ ?_)).trans ?_
    · intro v h1 h2
      simp only [decide_eq_true_eq] at h1 h2
      exact hnd.1 (h1 ▸ h2)
    · apply List.Perm.of_eq
      congr 1
      funext v
      simp [List.mem_cons]

theorem tierMajor_sorted (ps : List Priority) (vs : List Vulnerability)
    (hps : ps.Pairwise (fun p q => rank q ≤ rank p)) :
    (tierMajor ps vs).Pairwise (fun a b => rank b.Severity ≤ rank a.Severity) := by
  induction ps with
  | nil => simp [tierMajor]
  | cons p ps ih =>
    have hpw := List.pairwise_cons.mp hps
    rw [tierMajor, List.pairwise_append]
    refine ⟨?_, ih hpw.2, ?_⟩
    · rw [List.pairwise_iff_forall_sublist]
      intro a b hab
      have ha : a ∈ vs.filter (fun v => decide (v.Severity = p)) :=
        hab.subset (by simp)
      have hb : b ∈ vs.filter (fun v => decide (v.Severity = p)) :=
        hab.subset (by simp)
      simp only [List.mem_filter, decide_eq_true_eq] at ha hb
      rw [ha.2, hb.2]
    · intro a ha b hb
      simp only [List.mem_filter, decide_eq_true_eq] at ha
      rw [mem_tierMajor] at hb
      rw [ha.2]
      exact hpw.1 _ hb.2

theorem invertedPriorities_descending :
    invertedPriorities.Pairwise (fun p q => rank q ≤ rank p) := by
  rw [invertedPriorities_eq]
  decide

theorem reorder_perm (vs : List Vulnerability) :
    List.Perm (reorder vs) (vs.filter (fun v => decide (v.Severity ∈ Priorities))) := by
  rw [reorder_eq]
  refine (tierMajor_perm _ invertedPriorities_nodup vs).trans (List.Perm.of_eq ?_)
  congr 1
  funext v
  simp only [mem_invertedPriorities]

theorem mem_reorder (vs : List Vulnerability) (v : Vulnerability) :
    v ∈ reorder vs ↔ v ∈ vs ∧ v.Severity ∈ Priorities := by
  rw [reorder_eq, mem_tierMajor, mem_invertedPriorities]

theorem mem_sortedVulnerabilities (mrl : ImageAnalysis → LayerEnvelope) (a : ImageAnalysis)
    (nf : Feature) :
    nf ∈ sortedVulnerabilities mrl a ↔
      ∃ f ∈ (mrl a).Layer.Features, 0 < f.Vulnerabilities.length ∧
        nf = { f with Vulnerabilities := reorder f.Vulnerabilities } := by
  rw [sortedVulnerabilities_eq, List.mem_map]
  unfold affectedFeatures
  constructor
  · rintro ⟨f, hf, rfl⟩
    simp only [List.mem_filter, decide_eq_true_eq] at hf
    exact ⟨f, hf.1, hf.2, rfl⟩
  · rintro ⟨f, hf, hlen, rfl⟩
    exact ⟨f, by simp [List.mem_filter, hf, hlen], rfl⟩

theorem forall₂_sortedVulnerabilities (mrl : ImageAnalysis → LayerEnvelope) (a : ImageAnalysis)
    (R : Feature → Feature → Prop)
    (h : ∀ f ∈ (mrl a).Layer.Features, 0 < f.Vulnerabilities.length →
      R f { f with Vulnerabilities := reorder f.Vulnerabilities }) :
    List.Forall₂ R (affectedFeatures (mrl a).Layer.Features) (sortedVulnerabilities mrl a) := by
  rw [sortedVulnerabilities_eq, List.forall₂_map_right_iff, List.forall₂_same]
  intro f hf
  unfold affectedFeatures at hf
  simp only [List.mem_filter, decide_eq_true_eq] at hf
  exact h f hf.1 hf.2

/-! ## Claims on `sortedVulnerabilities` -/

/-- C2: in every feature emitted by `sortedVulnerabilities`, for any two
positions `i < j` of its vulnerability list both severities are canonical tiers
and the severity at `i` ranks at least as high as the severity at `j` in the
order Unknown < Negligible < Low < Medium < High < Critical < Defcon1. -/
theorem sortedVulnerabilities_descending (mrl : ImageAnalysis → LayerEnvelope)
    (a : ImageAnalysis) (nf : Feature) (hnf : nf ∈ sortedVulnerabilities mrl a)
    (i j : Nat) (hij : i < j) (hj : j < nf.Vulnerabilities.length) :
    (nf.Vulnerabilities.get ⟨i, lt_trans hij hj⟩).Severity ∈ Priorities ∧
    (nf.Vulnerabilities.get ⟨j, hj⟩).Severity ∈ Priorities ∧
    rank (nf.Vulnerabilities.get ⟨j, hj⟩).Severity ≤
      rank (nf.Vulnerabilities.get ⟨i, lt_trans hij hj⟩).Severity := by
  obtain ⟨f, _, _, rfl⟩ := (mem_sortedVulnerabilities mrl a nf).mp hnf
  have hsorted : (reorder f.Vulnerabilities).Pairwise
      (fun x y => rank y.Severity ≤ rank x.Severity) := by
    rw [reorder_eq]
    exact tierMajor_sorted _ _ invertedPriorities_descending
  refine ⟨?_, ?_, ?_⟩
  · exact ((mem_reorder _ _).mp (List.get_mem _ _ _)).2
  · exact ((mem_reorder _ _).mp (List.get_mem _ _ _)).2
  · exact List.pairwise_iff_get.mp hsorted ⟨i, lt_trans hij hj⟩ ⟨j, hj⟩ hij

/-- Witness of C2 on the layer `mixed`: in the emitted `openssl` feature the
vulnerability at position 1 (Critical) ranks at least as high as the one at
position 3 (Low). -/
theorem sortedVulnerabilities_descending_witness :
    rank "Low" ≤ rank "Critical" :=
  (sortedVulnerabilities_descending lastLayer mixed
    (mkFeature "openssl" "1.0.1"
      [mkVuln "CVE-2" "Critical", mkVuln "CVE-4" "Critical", mkVuln "CVE-2" "High",
       mkVuln "CVE-1" "Low", mkVuln "CVE-3" "Low"])
    (by decide) 1 3 (by decide) (by decide)).2.2

/-- C3: `sortedVulnerabilities` is stable within a tier: pairing the layer's
features that have vulnerabilities with the emitted features in order, for every
canonical tier `p` the emitted list restricted to severity `p` equals the input
list restricted to severity `p`. -/
theorem sortedVulnerabilities_stable (mrl : ImageAnalysis → LayerEnvelope)
    (a : ImageAnalysis) :
    List.Forall₂
      (fun f nf => ∀ p ∈ Priorities,
        nf.Vulnerabilities.filter (fun v => v.Severity = p) =
          f.Vulnerabilities.filter (fun v => v.Severity = p))
      (affectedFeatures (mrl a).Layer.Features) (sortedVulnerabilities mrl a) := by
  apply forall₂_sortedVulnerabilities
  intro f _ _ p hp
  show (reorder f.Vulnerabilities).filter _ = _
  rw [reorder_eq]
  exact filter_tierMajor _ invertedPriorities_nodup _ p ((mem_invertedPriorities p).mpr hp)

/-- C4: on the layer `mixed` the feature `bash:4.3` enters with one
vulnerability, CVE-5 of severity "Bogus", and `sortedVulnerabilities` emits it
with none, so the emitted lists are not all permutations of the input lists;
`vulnerabilities` keeps the same instance under the key "Bogus". -/
theorem sortedVulnerabilities_drops_unknown :
    sortedVulnerabilities lastLayer mixed =
      [mkFeature "openssl" "1.0.1"
        [mkVuln "CVE-2" "Critical", mkVuln "CVE-4" "Critical", mkVuln "CVE-2" "High",
         mkVuln "CVE-1" "Low", mkVuln "CVE-3" "Low"],
       mkFeature "bash" "4.3" []] ∧
    ¬ List.Forall₂ (fun f nf => List.Perm nf.Vulnerabilities f.Vulnerabilities)
      (affectedFeatures (lastLayer mixed).Layer.Features)
      (sortedVulnerabilities lastLayer mixed) ∧
    mapGet (vulnerabilities lastLayer mixed) "Bogus" =
      some [{ Vulnerability := mkVuln "CVE-5" "Bogus", Feature := "bash:4.3" }] := by
  have h1 : affectedFeatures (lastLayer mixed).Layer.Features =
      [mkFeature "openssl" "1.0.1"
        [mkVuln "CVE-1" "Low", mkVuln "CVE-2" "Critical", mkVuln "CVE-3" "Low",
         mkVuln "CVE-2" "High", mkVuln "CVE-4" "Critical"],
       mkFeature "bash" "4.3" [mkVuln "CVE-5" "Bogus"]] := by decide
  have h2 : sortedVulnerabilities lastLayer mixed =
      [mkFeature "openssl" "1.0.1"
        [mkVuln "CVE-2" "Critical", mkVuln "CVE-4" "Critical", mkVuln "CVE-2" "High",
         mkVuln "CVE-1" "Low", mkVuln "CVE-3" "Low"],
       mkFeature "bash" "4.3" []] := by decide
  refine ⟨h2, ?_, by decide⟩
  rw [h1, h2]
  intro h
  rw [List.forall₂_cons, List.forall₂_cons] at h
  have hlen := h.2.1.length_eq
  simp [mkFeature] at hlen

/-- The reach of the loss: pairing the layer's features that have
vulnerabilities with the emitted features in order, each emitted list is a
permutation of the input vulnerabilities whose severity is a canonical tier,
so a feature whose severities are all canonical tiers loses nothing. -/
theorem sortedVulnerabilities_perm (mrl : ImageAnalysis → LayerEnvelope)
    (a : ImageAnalysis) :
    List.Forall₂
      (fun f nf =>
        List.Perm nf.Vulnerabilities
          (f.Vulnerabilities.filter (fun v => decide (v.Severity ∈ Priorities))) ∧
        ((∀ v ∈ f.Vulnerabilities, v.Severity ∈ Priorities) →
          List.Perm nf.Vulnerabilities f.Vulnerabilities ∧
          nf.Vulnerabilities.length = f.Vulnerabilities.length))
      (affectedFeatures (mrl a).Layer.Features) (sortedVulnerabilities mrl a) := by
  apply forall₂_sortedVulnerabilities
  intro f _ _
  refine ⟨reorder_perm _, fun hall => ?_⟩
  have hfilter : f.Vulnerabilities.filter (fun v => decide (v.Severity ∈ Priorities)) =
      f.Vulnerabilities := by
    rw [List.filter_eq_self]
    intro v hv
    simpa using hall v hv
  have hperm : List.Perm (reorder f.Vulnerabilities) f.Vulnerabilities := by
    have := reorder_perm f.Vulnerabilities
    rwa [hfilter] at this
  exact ⟨hperm, hperm.length_eq⟩

/-- C5: the features returned by `sortedVulnerabilities`, with the
vulnerability list blanked, are exactly the layer's features that have at
least one vulnerability, with the vulnerability list blanked, in layer order. -/
theorem sortedVulnerabilities_frame (mrl : ImageAnalysis → LayerEnvelope)
    (a : ImageAnalysis) :
    (sortedVulnerabilities mrl a).map withoutVulnerabilities =
      ((mrl a).Layer.Features.filter (fun f => 0 < f.Vulnerabilities.length)).map
        withoutVulnerabilities := by
  rw [sortedVulnerabilities_eq, List.map_map]
  rfl

/-- C10: on the layer `unknownOnly` the feature `bash:4.3` passes the guard on
its input list and is emitted with an empty reordered vulnerability list. -/
theorem sortedVulnerabilities_emits_empty :
    sortedVulnerabilities lastLayer unknownOnly = [mkFeature "bash" "4.3" []] ∧
    ¬ (∀ nf ∈ sortedVulnerabilities lastLayer unknownOnly, nf.Vulnerabilities ≠ []) := by
  refine ⟨by decide, ?_⟩
  intro h
  exact h (mkFeature "bash" "4.3" []) (by decide) rfl

/-- The reach of the empty lists: every feature in the result of
`sortedVulnerabilities` comes from a feature of the layer whose input
vulnerability list is non-empty, and its reordered list is empty only when no
vulnerability of that input list has a canonical tier as severity. -/
theorem sortedVulnerabilities_nonempty (mrl : ImageAnalysis → LayerEnvelope)
    (a : ImageAnalysis) (nf : Feature) (hnf : nf ∈ sortedVulnerabilities mrl a) :
    ∃ f ∈ (mrl a).Layer.Features,
      f.Vulnerabilities ≠ [] ∧
      withoutVulnerabilities nf = withoutVulnerabilities f ∧
      (nf.Vulnerabilities ≠ [] ↔ ∃ v ∈ f.Vulnerabilities, v.Severity ∈ Priorities) := by
  obtain ⟨f, hf, hlen, rfl⟩ := (mem_sortedVulnerabilities mrl a nf).mp hnf
  refine ⟨f, hf, ?_, rfl, ?_⟩
  · intro h
    rw [h] at hlen
    exact absurd hlen (by decide)
  · show reorder f.Vulnerabilities ≠ [] ↔ _
    constructor
    · intro hne
      obtain ⟨v, hv⟩ := List.exists_mem_of_ne_nil _ hne
      exact ⟨v, (mem_reorder _ _).mp hv⟩
    · rintro ⟨v, hv, hc⟩ hnil
      have hmem : v ∈ reorder f.Vulnerabilities := (mem_reorder _ _).mpr ⟨hv, hc⟩
      rw [hnil] at hmem
      exact absurd hmem (List.not_mem_nil v)

/-- The previous statement on the end-to-end scenario, at the emitted feature
`bash:4.3`. -/
theorem sortedVulnerabilities_nonempty_witness :
    ∃ f ∈ (lastLayer scenario).Layer.Features,
      f.Vulnerabilities ≠ [] ∧
      withoutVulnerabilities (mkFeature "bash" "4.3" [mkVuln "CVE-A" "Critical"]) =
        withoutVulnerabilities f ∧
      ((mkFeature "bash" "4.3" [mkVuln "CVE-A" "Critical"]).Vulnerabilities ≠ [] ↔
        ∃ v ∈ f.Vulnerabilities, v.Severity ∈ Priorities) :=
  sortedVulnerabilities_nonempty lastLayer scenario
    (mkFeature "bash" "4.3" [mkVuln "CVE-A" "Critical"]) (by decide)

/-! ## Scenarios -/

/-- C8, as stated, fails: on the end-to-end scenario the result of
`AllVulnerabilities` is not the mapping with Critical 1 and High 1; it stores
no count for Critical and the count 1 for Low. -/
theorem AllVulnerabilities_scenario_not_critical :
    AllVulnerabilities lastLayer scenario ≠ [("Critical", 1), ("High", 1)] ∧
    (AllVulnerabilities lastLayer scenario).Count "Critical" = 0 ∧
    (AllVulnerabilities lastLayer scenario).Count "Low" = 1 := by
  decide

/-- C8, amended: for an analysis whose most recent layer holds, in this order,
`openssl:1.0.1` with CVE-A (High) and CVE-B (Low) and `bash:4.3` with CVE-A
(Critical), `AllVulnerabilities` returns exactly the mapping with High 1 and
Low 1. -/
theorem AllVulnerabilities_scenario (mrl : ImageAnalysis → LayerEnvelope) (a : ImageAnalysis)
    (h : (mrl a).Layer.Features =
      [ mkFeature "openssl" "1.0.1" [mkVuln "CVE-A" "High", mkVuln "CVE-B" "Low"],
        mkFeature "bash" "4.3" [mkVuln "CVE-A" "Critical"] ]) :
    AllVulnerabilities mrl a = [("High", 1), ("Low", 1)] ∧
    ∀ s, (AllVulnerabilities mrl a).Count s = if s = "High" ∨ s = "Low" then 1 else 0 := by
  have hval : AllVulnerabilities mrl a = [("High", 1), ("Low", 1)] := by
    unfold AllVulnerabilities
    simp only [h]
    decide
  refine ⟨hval, fun s => ?_⟩
  rw [hval]
  simp only [vulnerabiliesCounts.Count, mapGet]
  by_cases h1 : "High" = s
  · simp [h1.symm]
  · by_cases h2 : "Low" = s
    · have h3 : ¬ ("High" = "Low") := by decide
      simp [h2.symm, h3]
    · have h1' : ¬ s = "High" := fun h => h1 h.symm
      have h2' : ¬ s = "Low" := fun h => h2 h.symm
      simp [h1, h2, h1', h2']

/-- Witness of the amended C8 with the single-layer analysis `scenario`. -/
theorem AllVulnerabilities_scenario_witness :
    AllVulnerabilities lastLayer scenario = [("High", 1), ("Low", 1)] :=
  (AllVulnerabilities_scenario lastLayer scenario (by decide)).1

/-- C9: when the most recent layer has no features, `AllVulnerabilities`
returns the empty mapping, with total 0 and count 0 for every severity, and
`sortedVulnerabilities` returns the empty sequence. -/
theorem empty_layer (mrl : ImageAnalysis → LayerEnvelope) (a : ImageAnalysis)
    (h : (mrl a).Layer.Features = []) :
    AllVulnerabilities mrl a = [] ∧
    (AllVulnerabilities mrl a).Total = 0 ∧
    (∀ t, (AllVulnerabilities mrl a).Count t = 0) ∧
    sortedVulnerabilities mrl a = [] := by
  have hval : AllVulnerabilities mrl a = [] := by
    unfold AllVulnerabilities
    simp only [h]
    decide
  refine ⟨hval, ?_, ?_, ?_⟩
  · rw [hval]; rfl
  · intro t; rw [hval]; rfl
  · unfold sortedVulnerabilities
    simp only [h]
    rfl

/-- Witness of C9 on the analysis `noFeatures`. -/
theorem empty_layer_witness :
    AllVulnerabilities lastLayer noFeatures = [] ∧
    (AllVulnerabilities lastLayer noFeatures).Total = 0 ∧
    (∀ t, (AllVulnerabilities lastLayer noFeatures).Count t = 0) ∧
    sortedVulnerabilities lastLayer noFeatures = [] :=
  empty_layer lastLayer noFeatures (by decide)

/-! ## Association-list maps -/

theorem mapGet_mapSet {β : Type} (m : List (String × β)) (k k' : String) (v : β) :
    mapGet (mapSet m k v) k' = if k = k' then some v else mapGet m k' := by
  induction m with
  | nil => simp [mapSet, mapGet]
  | cons e m ih =>
    obtain ⟨a, b⟩ := e
    by_cases h : a = k
    · subst h
      by_cases h2 : a = k' <;> simp [mapSet, mapGet, h2]
    · by_cases h2 : a = k'
      · subst h2
        have h3 : ¬ k = a := fun h3 => h h3.symm
        simp [mapSet, mapGet, h, h3]
      · simp [mapSet, mapGet, h, h2, ih]

theorem mapGet_eq_none_iff {β : Type} (m : List (String × β)) (k : String) :
    mapGet m k = none ↔ k ∉ m.map Prod.fst := by
  induction m with
  | nil => simp [mapGet]
  | cons e m ih =>
    obtain ⟨a, b⟩ := e
    by_cases h : a = k
    · simp [mapGet, h]
    · have h' : ¬ k = a := fun h2 => h h2.symm
      simp [mapGet, h, h', ih]

theorem mapGet_of_mem {β : Type} (m : List (String × β)) (hnd : (m.map Prod.fst).Nodup)
    (e : String × β) (he : e ∈ m) : mapGet m e.1 = some e.2 := by
  induction m with
  | nil => simp at he
  | cons x m ih =>
    obtain ⟨a, b⟩ := x
    rw [List.map_cons, List.nodup_cons] at hnd
    rcases List.mem_cons.mp he with h | h
    · subst h; simp [mapGet]
    · have hne : ¬ a = e.1 := by
        intro h2
        have hmem : e.1 ∈ m.map Prod.fst := List.mem_map_of_mem Prod.fst h
        rw [← h2] at hmem
        exact hnd.1 hmem
      simp only [mapGet, hne, if_false]
      exact ih hnd.2 h

theorem mapSet_of_none {β : Type} (m : List (String × β)) (k : String) (v : β)
    (h : mapGet m k = none) : mapSet m k v = m ++ [(k, v)] := by
  induction m with
  | nil => rfl
  | cons e m ih =>
    obtain ⟨a, b⟩ := e
    by_cases h2 : a = k
    · simp [mapGet, h2] at h
    · simp only [mapGet, h2, if_false] at h
      simp [mapSet, h2, ih h]

theorem keys_mapSet {β : Type} (m : List (String × β)) (k : String) (v : β) (x : String) :
    x ∈ (mapSet m k v).map Prod.fst ↔ x = k ∨ x ∈ m.map Prod.fst := by
  induction m with
  | nil => simp [mapSet]
  | cons e m ih =>
    obtain ⟨a, b⟩ := e
    by_cases h : a = k
    · subst h
      simp [mapSet]
    · simp only [mapSet, h, if_false, List.map_cons, List.mem_cons, ih]
      tauto

theorem foldl_add_snd (v : List (String × Int)) (c : Int) :
    v.foldl (fun c e => c + e.2) c = c + (v.map Prod.snd).sum := by
  induction v generalizing c with
  | nil => simp
  | cons e v ih => rw [List.foldl_cons, ih, List.map_cons, List.sum_cons, add_assoc]

theorem Total_eq_sum (v : vulnerabiliesCounts) : v.Total = (v.map Prod.snd).sum := by
  unfold vulnerabiliesCounts.Total
  rw [foldl_add_snd, zero_add]

theorem sum_mapSet (m : List (String × Int)) (k : String) (v : Int) :
    ((mapSet m k v).map Prod.snd).sum =
      (m.map Prod.snd).sum - (mapGet m k).getD 0 + v := by
  induction m with
  | nil => simp [mapSet, mapGet]
  | cons e m ih =>
    obtain ⟨a, b⟩ := e
    by_cases h : a = k
    · simp [mapSet, mapGet, h]
      ring
    · simp only [mapSet, mapGet, h, if_false, List.map_cons, List.sum_cons, ih]
      ring

/-! ## The counting loops of `AllVulnerabilities` -/

theorem Count_increment (r : vulnerabiliesCounts) (p q : Priority) :
    (increment r p).Count q = r.Count q + if p = q then 1 else 0 := by
  unfold increment vulnerabiliesCounts.Count
  rw [mapGet_mapSet]
  by_cases h : p = q
  · subst h; simp
  · simp [h]

theorem Total_increment (r : vulnerabiliesCounts) (p : Priority) :
    (increment r p).Total = r.Total + 1 := by
  rw [Total_eq_sum, Total_eq_sum]
  unfold increment
  rw [sum_mapSet]
  ring

theorem keys_increment (r : vulnerabiliesCounts) (p x : Priority) :
    x ∈ (increment r p).map Prod.fst ↔ x = p ∨ x ∈ r.map Prod.fst := by
  unfold increment
  exact keys_mapSet _ _ _ _

theorem Count_countPriority (es : List (String × String)) (r : vulnerabiliesCounts)
    (p q : Priority) :
    (countPriority es r p).Count q =
      r.Count q + if p = q then (es.countP (fun e => e.2 = p) : Int) else 0 := by
  unfold countPriority
  induction es generalizing r with
  | nil => simp
  | cons e es ih =>
    rw [List.foldl_cons, ih]
    by_cases he : e.2 = p
    · simp only [he, if_true, Count_increment, List.countP_cons, decide_True]
      by_cases hpq : p = q
      · simp only [hpq, if_true]; push_cast; ring
      · simp [hpq]
    · simp [he, List.countP_cons]

theorem Total_countPriority (es : List (String × String)) (r : vulnerabiliesCounts)
    (p : Priority) :
    (countPriority es r p).Total = r.Total + (es.countP (fun e => e.2 = p) : Int) := by
  unfold countPriority
  induction es generalizing r with
  | nil => simp
  | cons e es ih =>
    rw [List.foldl_cons, ih]
    by_cases he : e.2 = p
    · simp only [he, if_true, Total_increment, List.countP_cons, decide_True]
      push_cast; ring
    · simp [he, List.countP_cons]

theorem keys_countPriority (es : List (String × String)) (r : vulnerabiliesCounts)
    (p x : Priority) (hx : x ∈ (countPriority es r p).map Prod.fst) :
    x = p ∨ x ∈ r.map Prod.fst := by
  unfold countPriority at hx
  induction es generalizing r with
  | nil => exact Or.inr hx
  | cons e es ih =>
    rw [List.foldl_cons] at hx
    have h := ih _ hx
    by_cases he : e.2 = p
    · simp only [he, if_true] at h
      rcases h with h | h
      · exact Or.inl h
      · exact (keys_increment _ _ _).mp h
    · simpa [he] using h

theorem Count_foldl_countPriority (es : List (String × String)) (ps : List Priority)
    (r : vulnerabiliesCounts) (q : Priority) :
    (ps.foldl (countPriority es) r).Count q =
      r.Count q + (ps.count q : Int) * (es.countP (fun e => e.2 = q) : Int) := by
  induction ps generalizing r with
  | nil => simp
  | cons p ps ih =>
    rw [List.foldl_cons, ih, Count_countPriority]
    by_cases hpq : p = q
    · subst hpq
      simp only [if_true, List.count_cons_self]
      push_cast; ring
    · have : ¬ (p == q) = true := by simpa using hpq
      simp [hpq, List.count_cons, this]

theorem Total_foldl_countPriority (es : List (String × String)) (ps : List Priority)
    (r : vulnerabiliesCounts) :
    (ps.foldl (countPriority es) r).Total =
      r.Total + (ps.map (fun p => (es.countP (fun e => e.2 = p) : Int))).sum := by
  induction ps generalizing r with
  | nil => simp
  | cons p ps ih =>
    rw [List.foldl_cons, ih, Total_countPriority, List.map_cons, List.sum_cons]
    ring

theorem keys_foldl_countPriority (es : List (String × String)) (ps : List Priority)
    (r : vulnerabiliesCounts) (x : Priority)
    (hx : x ∈ (ps.foldl (countPriority es) r).map Prod.fst) :
    x ∈ ps ∨ x ∈ r.map Prod.fst := by
  induction ps generalizing r with
  | nil => exact Or.inr hx
  | cons p ps ih =>
    rw [List.foldl_cons] at hx
    rcases ih _ hx with h | h
    · exact Or.inl (List.mem_cons_of_mem _ h)
    · rcases keys_countPriority _ _ _ _ h with h2 | h2
      · exact Or.inl (h2 ▸ List.mem_cons_self _ _)
      · exact Or.inr h2

/-! ## The name to severity map of `AllVulnerabilities` -/

theorem foldl_features (fs : List Feature) (m : List (String × String)) :
    fs.foldl (fun m f => f.Vulnerabilities.foldl recordFirst m) m =
      (layerVulnerabilities fs).foldl recordFirst m := by
  induction fs generalizing m with
  | nil => rfl
  | cons f fs ih => rw [List.foldl_cons, ih, layerVulnerabilities, List.foldl_append]

theorem collectSeverities_eq (fs : List Feature) :
    collectSeverities fs = (layerVulnerabilities fs).foldl recordFirst [] :=
  foldl_features fs []

theorem mapGet_recordFirst (m : List (String × String)) (v : Vulnerability) (n : String) :
    mapGet (recordFirst m v) n =
      match mapGet m n with
      | some s => some s
      | none => if v.Name = n then some v.Severity else none := by
  unfold recordFirst
  cases h : mapGet m v.Name with
  | none =>
    simp only [mapGet_mapSet]
    by_cases hn : v.Name = n
    · subst hn; simp [h]
    · simp only [hn, if_false]
      cases mapGet m n <;> rfl
  | some s =>
    by_cases hn : v.Name = n
    · subst hn; simp [h]
    · simp only [hn, if_false]
      cases mapGet m n <;> rfl

theorem mapGet_foldl_recordFirst (vs : List Vulnerability) (m : List (String × String))
    (n : String) :
    mapGet (vs.foldl recordFirst m) n =
      match mapGet m n with
      | some s => some s
      | none => firstSeverity vs n := by
  induction vs generalizing m with
  | nil => simp only [List.foldl_nil, firstSeverity]; cases mapGet m n <;> rfl
  | cons v vs ih =>
    rw [List.foldl_cons, ih, mapGet_recordFirst, firstSeverity]
    cases mapGet m n with
    | some s => rfl
    | none =>
      by_cases hn : v.Name = n
      · simp [hn]
      · simp [hn]

theorem nodup_recordFirst (m : List (String × String)) (v : Vulnerability)
    (hnd : (m.map Prod.fst).Nodup) : ((recordFirst m v).map Prod.fst).Nodup := by
  unfold recordFirst
  cases h : mapGet m v.Name with
  | some s => exact hnd
  | none =>
    simp only [mapSet_of_none m _ _ h, List.map_append, List.map_cons, List.map_nil]
    rw [List.nodup_append]
    refine ⟨hnd, List.nodup_singleton _, ?_⟩
    intro x hx hx2
    rw [List.mem_singleton] at hx2
    subst hx2
    exact (mapGet_eq_none_iff m _).mp h hx

theorem nodup_foldl_recordFirst (vs : List Vulnerability) (m : List (String × String))
    (hnd : (m.map Prod.fst).Nodup) : ((vs.foldl recordFirst m).map Prod.fst).Nodup := by
  induction vs generalizing m with
  | nil => exact hnd
  | cons v vs ih => exact ih _ (nodup_recordFirst m v hnd)

theorem mapGet_collectSeverities (fs : List Feature) (n : String) :
    mapGet (collectSeverities fs) n = firstSeverity (layerVulnerabilities fs) n := by
  rw [collectSeverities_eq, mapGet_foldl_recordFirst]
  rfl

theorem nodup_collectSeverities (fs : List Feature) :
    ((collectSeverities fs).map Prod.fst).Nodup := by
  rw [collectSeverities_eq]
  exact nodup_foldl_recordFirst _ [] List.nodup_nil

theorem firstSeverity_some_mem (vs : List Vulnerability) (n s : String)
    (h : firstSeverity vs n = some s) : n ∈ vs.map (fun v => v.Name) := by
  induction vs with
  | nil => simp [firstSeverity] at h
  | cons v vs ih =>
    by_cases hn : v.Name = n
    · simp [hn]
    · simp only [firstSeverity, hn, if_false] at h
      exact List.mem_cons_of_mem _ (ih h)

theorem countP_eq_card (fs : List Feature) (p : Priority) :
    (collectSeverities fs).countP (fun e => e.2 = p) =
      (((layerVulnerabilities fs).map (fun v => v.Name)).toFinset.filter
        (fun n => firstSeverity (layerVulnerabilities fs) n = some p)).card := by
  have hnd := nodup_collectSeverities fs
  have h1 : (collectSeverities fs).countP (fun e => decide (e.2 = p)) =
      ((collectSeverities fs).map Prod.fst).countP
        (fun n => decide (mapGet (collectSeverities fs) n = some p)) := by
    rw [List.countP_map]
    apply List.countP_congr
    intro e he
    simp only [Function.comp, decide_eq_true_eq, mapGet_of_mem _ hnd e he, Option.some.injEq]
  rw [h1, List.countP_eq_length_filter,
    ← List.toFinset_card_of_nodup (hnd.filter _)]
  congr 1
  ext n
  simp only [List.mem_toFinset, List.mem_filter, decide_eq_true_eq, Finset.mem_filter,
    mapGet_collectSeverities]
  constructor
  · rintro ⟨_, h⟩
    exact ⟨firstSeverity_some_mem _ _ _ h, h⟩
  · rintro ⟨_, h⟩
    refine ⟨?_, h⟩
    by_contra hc
    have := (mapGet_eq_none_iff (collectSeverities fs) n).mpr hc
    rw [mapGet_collectSeverities, h] at this
    exact absurd this (by simp)

/-! ## Independence of the map iteration order

Go ranges over a map in an unspecified order. The counting loops give the same
result for every order of the entries of the name to severity map. -/

theorem countPriority_eq_iterate (es : List (String × String)) (r : vulnerabiliesCounts)
    (p : Priority) :
    countPriority es r p =
      Nat.iterate (fun x => increment x p) (es.countP (fun e => e.2 = p)) r := by
  unfold countPriority
  induction es generalizing r with
  | nil => rfl
  | cons e es ih =>
    rw [List.foldl_cons, ih]
    by_cases he : e.2 = p
    · simp [he, List.countP_cons, Function.iterate_succ_apply]
    · simp [he, List.countP_cons]

theorem countAll_perm (ps : List Priority) (es es' : List (String × String))
    (h : List.Perm es es') : countAll ps es = countAll ps es' := by
  have hstep : countPriority es = countPriority es' := by
    funext r p
    rw [countPriority_eq_iterate, countPriority_eq_iterate, h.countP_eq]
  unfold countAll
  rw [hstep]

/-! ## Claims on `AllVulnerabilities` -/

/-- C1: for every canonical tier `p`, the count stored by `AllVulnerabilities`
for `p` is the number of distinct vulnerability names of the most recent layer
whose first occurrence, scanning features in layer order and each feature's
vulnerabilities in list order, has severity `p`. -/
theorem AllVulnerabilities_count (mrl : ImageAnalysis → LayerEnvelope) (a : ImageAnalysis)
    (p : Priority) (hp : p ∈ Priorities) :
    (AllVulnerabilities mrl a).Count p =
      ((((layerVulnerabilities (mrl a).Layer.Features).map (fun v => v.Name)).toFinset.filter
        (fun n => firstSeverity (layerVulnerabilities (mrl a).Layer.Features) n = some p)).card
        : Int) := by
  unfold AllVulnerabilities countAll
  simp only []
  rw [Count_foldl_countPriority, countP_eq_card,
    List.count_eq_one_of_mem invertedPriorities_nodup ((mem_invertedPriorities p).mpr hp)]
  simp [vulnerabiliesCounts.Count, mapGet]

/-- Witness of C1 on `twoSeverities`, where CVE-X occurs first as High and then
as Low: it counts once for High and not at all for Low. -/
theorem AllVulnerabilities_count_witness :
    (AllVulnerabilities lastLayer twoSeverities).Count "High" = 1 ∧
    (AllVulnerabilities lastLayer twoSeverities).Count "Low" = 0 :=
  ⟨(AllVulnerabilities_count lastLayer twoSeverities "High" (by decide)).trans (by decide),
   (AllVulnerabilities_count lastLayer twoSeverities "Low" (by decide)).trans (by decide)⟩

/-- C6: the counts of `AllVulnerabilities` over the canonical tiers sum to
`Total()`; every stored key is a canonical tier, and the count of a string that
is no canonical tier is 0. -/
theorem AllVulnerabilities_total (mrl : ImageAnalysis → LayerEnvelope) (a : ImageAnalysis) :
    (Priorities.map (fun t => (AllVulnerabilities mrl a).Count t)).sum =
      (AllVulnerabilities mrl a).Total ∧
    (∀ e ∈ AllVulnerabilities mrl a, e.1 ∈ Priorities) ∧
    (∀ s, s ∉ Priorities → (AllVulnerabilities mrl a).Count s = 0) := by
  have hkeys : ∀ x, x ∈ (AllVulnerabilities mrl a).map Prod.fst → x ∈ Priorities := by
    intro x hx
    unfold AllVulnerabilities countAll at hx
    rcases keys_foldl_countPriority _ _ _ _ hx with h | h
    · exact (mem_invertedPriorities x).mp h
    · simp at h
  refine ⟨?_, ?_, ?_⟩
  · unfold AllVulnerabilities countAll
    simp only [Count_foldl_countPriority, Total_foldl_countPriority]
    rw [invertedPriorities_eq]
    simp only [Priorities, List.map_cons, List.map_nil, List.sum_cons, List.sum_nil,
      vulnerabiliesCounts.Count, vulnerabiliesCounts.Total, mapGet, List.foldl_nil,
      Option.getD_none]
    have hc : ∀ (x : String) (l : List String), l.count x = l.countP (fun y => y == x) :=
      fun _ _ => rfl
    simp only [hc, List.countP_cons, List.countP_nil]
    simp only [String.reduceBEq]
    simp
    ring
  · intro e he
    exact hkeys e.1 (List.mem_map_of_mem Prod.fst he)
  · intro s hs
    have hnone : mapGet (AllVulnerabilities mrl a) s = none :=
      (mapGet_eq_none_iff _ s).mpr (fun h => hs (hkeys s h))
    simp [vulnerabiliesCounts.Count, hnone]

/-! ## `RelativeCount` -/

/-- C7: `RelativeCount` evaluated on exact percentages. For the mapping with
High 7 and Low 93 (7 of 100) it returns the float64 nearest to 7.01, not 7;
for the counts of the layer `elevenOfTwenty` (11 of 20) it returns the float64
nearest to 55.01, not 55; for 1 of 3 it returns the float64 nearest to 33.34. -/
theorem RelativeCount_exact_percentage :
    vulnerabiliesCounts.RelativeCount [("High", 7), ("Low", 93)] "High" =
      Float64.roundNearest false 701 100 ∧
    vulnerabiliesCounts.RelativeCount [("High", 7), ("Low", 93)] "High" ≠ Float64.ofInt 7 ∧
    AllVulnerabilities lastLayer elevenOfTwenty = [("High", 11), ("Low", 9)] ∧
    (AllVulnerabilities lastLayer elevenOfTwenty).RelativeCount "High" =
      Float64.roundNearest false 5501 100 ∧
    (AllVulnerabilities lastLayer elevenOfTwenty).RelativeCount "High" ≠ Float64.ofInt 55 ∧
    vulnerabiliesCounts.RelativeCount [("High", 1), ("Low", 2)] "High" =
      Float64.roundNearest false 3334 100 := by
  decide

/-! ## `invertedPriorities` on an arbitrary table -/

theorem some_getD_of_lt (P : List Priority) (b : Nat) (hb : b < P.length) :
    some (P.getD b "") = P[b]? := by
  rw [List.getD_eq_getElem?_getD, List.getElem?_eq_getElem hb]
  rfl

theorem invertLoop_spec (P : List Priority) (fuel : Nat) (i j : Int) (ip : List Priority)
    (hi : 0 ≤ i) (hij : i + j = (P.length : Int) - 1) (hlen : ip.length = P.length)
    (hfuel : j + 1 - i ≤ 2 * (fuel : Int)) :
    (invertLoop P fuel i j ip).length = P.length ∧
    ∀ k : Nat, k < P.length →
      (invertLoop P fuel i j ip)[k]? =
        if i ≤ (k : Int) ∧ (k : Int) ≤ j then P[P.length - 1 - k]? else ip[k]? := by
  induction fuel generalizing i j ip with
  | zero =>
    simp only [invertLoop]
    refine ⟨hlen, fun k _ => ?_⟩
    have hno : ¬ (i ≤ (k : Int) ∧ (k : Int) ≤ j) := by omega
    simp [hno]
  | succ fuel ih =>
    simp only [invertLoop]
    by_cases hle : i ≤ j
    · simp only [hle, if_true]
      have hj0 : 0 ≤ j := by omega
      obtain ⟨a, rfl⟩ := Int.eq_ofNat_of_zero_le hi
      obtain ⟨b, rfl⟩ := Int.eq_ofNat_of_zero_le hj0
      simp only [Int.toNat_ofNat]
      have ha : a < P.length := by omega
      have hb : b < P.length := by omega
      have hlen2 : ((ip.set a (P.getD b "")).set b (P.getD a "")).length = P.length := by
        simp [hlen]
      obtain ⟨h1, h2⟩ := ih ((a : Int) + 1) ((b : Int) - 1) _ (by omega) (by omega) hlen2
        (by omega)
      refine ⟨h1, fun k hk => ?_⟩
      rw [h2 k hk]
      by_cases hin : (a : Int) + 1 ≤ (k : Int) ∧ (k : Int) ≤ (b : Int) - 1
      · have hout : (a : Int) ≤ (k : Int) ∧ (k : Int) ≤ (b : Int) := by omega
        simp only [hin, hout, and_self, if_true]
      · simp only [hin, if_false]
        rw [List.getElem?_set, List.getElem?_set]
        by_cases hkb : b = k
        · subst hkb
          have hout : (a : Int) ≤ (b : Int) ∧ (b : Int) ≤ (b : Int) := by omega
          have hidx : P.length - 1 - b = a := by omega
          simp only [hout, and_self, if_true, List.length_set, hlen, hb, hidx]
          exact some_getD_of_lt P a ha
        · simp only [hkb, if_false]
          by_cases hka : a = k
          · subst hka
            have hout : (a : Int) ≤ (a : Int) ∧ (a : Int) ≤ (b : Int) := by omega
            have hidx : P.length - 1 - a = b := by omega
            simp only [hout, and_self, if_true, hlen, ha, hidx]
            exact some_getD_of_lt P b hb
          · have hout : ¬ ((a : Int) ≤ (k : Int) ∧ (k : Int) ≤ (b : Int)) := by omega
            simp only [hka, hout, if_false]
    · simp only [hle, if_false]
      refine ⟨hlen, fun k _ => ?_⟩
      have hno : ¬ (i ≤ (k : Int) ∧ (k : Int) ≤ j) := by omega
      simp [hno]

theorem invertedPrioritiesOf_eq_reverse (P : List Priority) :
    invertedPrioritiesOf P = P.reverse := by
  unfold invertedPrioritiesOf
  obtain ⟨h1, h2⟩ := invertLoop_spec P (P.length + 1) 0 ((P.length : Int) - 1)
    (List.replicate P.length "") (le_refl 0) (by omega) (by simp) (by push_cast; omega)
  apply List.ext_getElem?
  intro k
  by_cases hk : k < P.length
  · rw [h2 k hk, List.getElem?_reverse hk]
    have hin : (0 : Int) ≤ (k : Int) ∧ (k : Int) ≤ (P.length : Int) - 1 := by omega
    simp only [hin, and_self, if_true]
  · rw [List.getElem?_eq_none (by omega), List.getElem?_eq_none (by simp; omega)]

theorem invertRun_eq (fuel : Nat) (i j : Int) (s : InvertState) :
    invertRun fuel i j s =
      { Priorities := s.Priorities, ip := invertLoop s.Priorities fuel i j s.ip } := by
  induction fuel generalizing i j s with
  | zero => rfl
  | succ fuel ih =>
    simp only [invertRun, invertLoop]
    by_cases hle : i ≤ j
    · simp only [hle, if_true, ih]
    · simp only [hle, if_false]

/-- C11: for a table `P` of any length, `invertedPriorities` returns a slice of
the same length whose element at index `i` is `P[len - 1 - i]`; the loop
leaves the table itself unchanged; and mirroring the result again gives back
`P`. On the canonical table the result is the descending order. -/
theorem invertedPriorities_mirror (P : List Priority) :
    (invertedPrioritiesOf P).length = P.length ∧
    (∀ i : Nat, i < P.length → (invertedPrioritiesOf P)[i]? = P[P.length - 1 - i]?) ∧
    invertRun (P.length + 1) 0 ((P.length : Int) - 1)
        { Priorities := P, ip := List.replicate P.length "" } =
      { Priorities := P, ip := invertedPrioritiesOf P } ∧
    invertedPrioritiesOf (invertedPrioritiesOf P) = P ∧
    invertedPriorities = Priorities.reverse := by
  refine ⟨?_, ?_, ?_, ?_, ?_⟩
  · rw [invertedPrioritiesOf_eq_reverse, List.length_reverse]
  · intro i hi
    rw [invertedPrioritiesOf_eq_reverse, List.getElem?_reverse hi]
  · rw [invertRun_eq]
    rfl
  · rw [invertedPrioritiesOf_eq_reverse, invertedPrioritiesOf_eq_reverse, List.reverse_reverse]
  · exact invertedPrioritiesOf_eq_reverse Priorities

/-- Witness of C11: on the canonical table the element at index 2 of the
inverted order is the element at index 4 of the ascending order, High. -/
theorem invertedPriorities_mirror_witness :
    (invertedPrioritiesOf Priorities)[2]? = some "High" :=
  (invertedPriorities_mirror Priorities).2.1 2 (by decide)

/-! ## The grouping loop of `vulnerabilities` -/

theorem nodup_keys_mapSet {β : Type} (m : List (String × β)) (k : String) (v : β)
    (hnd : (m.map Prod.fst).Nodup) : ((mapSet m k v).map Prod.fst).Nodup := by
  induction m with
  | nil => simp [mapSet]
  | cons e m ih =>
    obtain ⟨a, b⟩ := e
    rw [List.map_cons, List.nodup_cons] at hnd
    by_cases h : a = k
    · simp only [mapSet, h, if_true, List.map_cons, List.nodup_cons]
      exact ⟨h ▸ hnd.1, hnd.2⟩
    · simp only [mapSet, h, if_false, List.map_cons, List.nodup_cons]
      refine ⟨?_, ih hnd.2⟩
      intro hmem
      rcases (keys_mapSet m k v a).mp hmem with h2 | h2
      · exact h h2
      · exact hnd.1 h2

theorem sumLength_mapSet {α : Type} (m : List (String × List α)) (k : String) (v : List α) :
    ((mapSet m k v).map (fun e => e.2.length)).sum + ((mapGet m k).getD []).length =
      (m.map (fun e => e.2.length)).sum + v.length := by
  induction m with
  | nil => simp [mapSet, mapGet]
  | cons e m ih =>
    obtain ⟨a, b⟩ := e
    by_cases h : a = k
    · simp [mapSet, mapGet, h]
      omega
    · simp only [mapSet, mapGet, h, if_false, List.map_cons, List.sum_cons]
      omega

theorem groupStep_eq (f : Feature) (r : List (Priority × List vulnerabilityWithFeature))
    (v : Vulnerability) :
    groupStep f r v =
      groupOne r { Vulnerability := v, Feature := f.Name ++ ":" ++ f.Version } := rfl

theorem foldl_groupStep (fs : List Feature) (r : List (Priority × List vulnerabilityWithFeature)) :
    fs.foldl (fun result f => f.Vulnerabilities.foldl (groupStep f) result) r =
      (labelledVulnerabilities fs).foldl groupOne r := by
  induction fs generalizing r with
  | nil => rfl
  | cons f fs ih =>
    rw [List.foldl_cons, ih, labelledVulnerabilities, List.foldl_append, List.foldl_map]
    rfl

theorem vulnerabilities_eq (mrl : ImageAnalysis → LayerEnvelope) (a : ImageAnalysis) :
    vulnerabilities mrl a =
      (labelledVulnerabilities (mrl a).Layer.Features).foldl groupOne [] :=
  foldl_groupStep _ []

theorem mapGet_foldl_groupOne (xs : List vulnerabilityWithFeature)
    (m : List (Priority × List vulnerabilityWithFeature)) (s : String) :
    mapGet (xs.foldl groupOne m) s =
      match mapGet m s with
      | some old => some (old ++ xs.filter (fun x => x.Vulnerability.Severity = s))
      | none =>
        if xs.filter (fun x => x.Vulnerability.Severity = s) = [] then none
        else some (xs.filter (fun x => x.Vulnerability.Severity = s)) := by
  induction xs generalizing m with
  | nil => cases h : mapGet m s <;> simp [h]
  | cons x xs ih =>
    rw [List.foldl_cons, ih]
    unfold groupOne
    rw [mapGet_mapSet]
    by_cases hs : x.Vulnerability.Severity = s
    · subst hs
      cases h : mapGet m x.Vulnerability.Severity <;> simp [List.filter_cons]
    · cases h : mapGet m s <;> simp [hs, List.filter_cons]

theorem nodup_foldl_groupOne (xs : List vulnerabilityWithFeature)
    (m : List (Priority × List vulnerabilityWithFeature)) (hnd : (m.map Prod.fst).Nodup) :
    ((xs.foldl groupOne m).map Prod.fst).Nodup := by
  induction xs generalizing m with
  | nil => exact hnd
  | cons x xs ih => exact ih _ (nodup_keys_mapSet m _ _ hnd)

theorem sumLength_foldl_groupOne (xs : List vulnerabilityWithFeature)
    (m : List (Priority × List vulnerabilityWithFeature)) :
    ((xs.foldl groupOne m).map (fun e => e.2.length)).sum =
      (m.map (fun e => e.2.length)).sum + xs.length := by
  induction xs generalizing m with
  | nil => simp
  | cons x xs ih =>
    rw [List.foldl_cons, ih]
    have h : ((groupOne m x).map (fun e => e.2.length)).sum +
          ((mapGet m x.Vulnerability.Severity).getD []).length =
        (m.map (fun e => e.2.length)).sum +
          (((mapGet m x.Vulnerability.Severity).getD []).length + 1) := by
      have h0 := sumLength_mapSet m x.Vulnerability.Severity
        ((mapGet m x.Vulnerability.Severity).getD [] ++ [x])
      rw [List.length_append, List.length_singleton] at h0
      exact h0
    rw [List.length_cons]
    omega

theorem labelled_map_vulnerability (fs : List Feature) :
    (labelledVulnerabilities fs).map (fun x => x.Vulnerability) = layerVulnerabilities fs := by
  induction fs with
  | nil => rfl
  | cons f fs ih =>
    rw [labelledVulnerabilities, layerVulnerabilities, List.map_append, ih, List.map_map]
    congr 1
    exact List.map_id _

theorem labelled_length (fs : List Feature) :
    (labelledVulnerabilities fs).length = (layerVulnerabilities fs).length := by
  rw [← labelled_map_vulnerability, List.length_map]

/-! ## Claims on `vulnerabilities` -/

/-- C12: for every severity string `s`, the entry for `s` in
`vulnerabilities(analysis)` is the sequence, in layer feature order and then in
each feature's vulnerability order, of all vulnerabilities of severity `s`, each
paired with the label `name:version` of its feature; the key is present only
when that sequence is non-empty; keys are unique; and the lengths of all entries
sum to the number of vulnerability instances of the layer. -/
theorem vulnerabilities_entries (mrl : ImageAnalysis → LayerEnvelope) (a : ImageAnalysis) :
    (∀ s : String,
      mapGet (vulnerabilities mrl a) s =
        if (labelledVulnerabilities (mrl a).Layer.Features).filter
            (fun x => x.Vulnerability.Severity = s) = [] then none
        else some ((labelledVulnerabilities (mrl a).Layer.Features).filter
            (fun x => x.Vulnerability.Severity = s))) ∧
    ((vulnerabilities mrl a).map Prod.fst).Nodup ∧
    ((vulnerabilities mrl a).map (fun e => e.2.length)).sum =
      (layerVulnerabilities (mrl a).Layer.Features).length ∧
    (labelledVulnerabilities (mrl a).Layer.Features).map (fun x => x.Vulnerability) =
      layerVulnerabilities (mrl a).Layer.Features := by
  refine ⟨fun s => ?_, ?_, ?_, labelled_map_vulnerability _⟩
  · rw [vulnerabilities_eq, mapGet_foldl_groupOne]
    rfl
  · rw [vulnerabilities_eq]
    exact nodup_foldl_groupOne _ [] List.nodup_nil
  · rw [vulnerabilities_eq, sumLength_foldl_groupOne, labelled_length]
    simp

/-! ## Claims on `ReportAsHTML` -/

/-- C14: when `Asset` fails with error `e`, `ReportAsHTML` returns the empty
string with the error "accessing template: " followed by `e`, and its only
call is the one to `Asset`: the template is neither parsed nor executed and no
helper runs. -/
theorem ReportAsHTML_asset_error {T : Type} (c : Collaborators T) (analyzes : ImageAnalysis)
    (e : String) (h : c.Asset "templates/analysis-template.html" = .error e) :
    ReportAsHTML c analyzes =
      (.returned "" (some ("accessing template: " ++ e)),
        [.asset "templates/analysis-template.html"]) := by
  unfold ReportAsHTML
  rw [h]

/-- Witness of C14 with the collaborators `missingAsset`, whose asset lookup
fails with "Asset templates/analysis-template.html not found". -/
theorem ReportAsHTML_asset_error_witness :
    ReportAsHTML missingAsset scenario =
      (.returned ""
        (some "accessing template: Asset templates/analysis-template.html not found"),
        [.asset "templates/analysis-template.html"]) :=
  ReportAsHTML_asset_error missingAsset scenario
    "Asset templates/analysis-template.html not found" rfl

/-- C15, as stated, fails: with the collaborators `failingExecute`, whose
execution writes "<html>" and then fails with "boom", the error returned is
"rendering HTML report: boom", not "rendering report: boom". -/
theorem ReportAsHTML_render_error_message :
    (ReportAsHTML failingExecute scenario).1 =
      .returned "" (some "rendering HTML report: boom") ∧
    (ReportAsHTML failingExecute scenario).1 ≠
      .returned "" (some "rendering report: boom") := by
  decide

/-- C15, amended: when execution of the parsed template fails with error `e`,
`ReportAsHTML` returns the empty string, whatever was written to the buffer,
with the error "rendering HTML report: " followed by `e`. -/
theorem ReportAsHTML_render_error {T : Type} (c : Collaborators T) (analyzes : ImageAnalysis)
    (asset : String) (templte : T) (e : String)
    (hasset : c.Asset "templates/analysis-template.html" = .ok asset)
    (hparse : c.Parse "analysis-template"
      ["vulnerabilities", "allVulnerabilities", "sortedVulnerabilities"] asset = .ok templte)
    (hexec : (c.Execute templte analyzes).err = some e) :
    (ReportAsHTML c analyzes).1 = .returned "" (some ("rendering HTML report: " ++ e)) := by
  unfold ReportAsHTML
  simp only [hasset, hparse, hexec]

/-- Witness of the amended C15 with the collaborators `failingExecute`. -/
theorem ReportAsHTML_render_error_witness :
    (ReportAsHTML failingExecute scenario).1 =
      .returned "" (some "rendering HTML report: boom") :=
  ReportAsHTML_render_error failingExecute scenario "\x7b\x7b . \x7d\x7d" () "boom" rfl rfl rfl

/-! ## `RelativeCount` on an empty total -/

theorem div_zero_not_finite (x : Float64) :
    (Float64.div x (Float64.ofInt 0)).isFinite = false := by
  have hz : Float64.ofInt 0 = .finite false 0 0 := by decide
  rw [hz]
  cases x with
  | nan => rfl
  | inf s => rfl
  | finite s m e =>
    simp only [Float64.div, if_true]
    by_cases hm : m = 0
    · simp [hm, Float64.isFinite]
    · simp [hm, Float64.isFinite]

theorem mul_hundred_not_finite (x : Float64) (hx : x.isFinite = false) :
    (Float64.mul x (Float64.ofInt 100)).isFinite = false := by
  have hc : Float64.ofInt 100 = .finite false 7036874417766400 (-46) := by decide
  rw [hc]
  cases x with
  | nan => rfl
  | inf s => simp [Float64.mul, Float64.isFinite]
  | finite s m e => simp [Float64.isFinite] at hx

theorem ceil_not_finite (x : Float64) (hx : x.isFinite = false) :
    (Float64.ceil x).isFinite = false := by
  cases x with
  | nan => rfl
  | inf s => rfl
  | finite s m e => simp [Float64.isFinite] at hx

theorem div_hundred_not_finite (x : Float64) (hx : x.isFinite = false) :
    (Float64.div x (Float64.ofInt 100)).isFinite = false := by
  have hc : Float64.ofInt 100 = .finite false 7036874417766400 (-46) := by decide
  rw [hc]
  cases x with
  | nan => rfl
  | inf s => rfl
  | finite s m e => simp [Float64.isFinite] at hx

/-- C16: `RelativeCount` is total, and for every counts mapping whose `Total()`
is 0 and every severity string it returns a non-finite float64: a NaN when the
count is 0 and an infinity otherwise, the result of the division by zero. -/
theorem RelativeCount_zero_total (v : vulnerabiliesCounts) (severity : String)
    (h : v.Total = 0) :
    (v.RelativeCount severity).isFinite = false ∧
    (v.Count severity = 0 → v.RelativeCount severity = Float64.nan) ∧
    v.RelativeCount severity ≠ Float64.ofInt 0 := by
  have hnf : (v.RelativeCount severity).isFinite = false := by
    unfold vulnerabiliesCounts.RelativeCount
    simp only [h]
    exact div_hundred_not_finite _ (ceil_not_finite _ (mul_hundred_not_finite _
      (mul_hundred_not_finite _ (div_zero_not_finite _))))
  refine ⟨hnf, ?_, ?_⟩
  · intro hc
    unfold vulnerabiliesCounts.Count at hc
    unfold vulnerabiliesCounts.RelativeCount
    simp only [h, hc]
    decide
  · intro heq
    rw [heq] at hnf
    exact absurd hnf (by decide)

/-- Witness of C16 on the empty mapping, returned for a layer without
vulnerabilities: the result is a NaN. -/
theorem RelativeCount_zero_total_witness :
    (vulnerabiliesCounts.RelativeCount [] "High").isFinite = false :=
  (RelativeCount_zero_total [] "High" rfl).1

/-! ## The counts of `AllVulnerabilities` against its total -/

theorem Count_nonneg (mrl : ImageAnalysis → LayerEnvelope) (a : ImageAnalysis) (t : String) :
    0 ≤ (AllVulnerabilities mrl a).Count t := by
  unfold AllVulnerabilities countAll
  simp only [Count_foldl_countPriority]
  have h0 : vulnerabiliesCounts.Count [] t = 0 := rfl
  rw [h0, zero_add]
  exact mul_nonneg (Int.ofNat_nonneg _) (Int.ofNat_nonneg _)

theorem sum_Count_eq_Total (mrl : ImageAnalysis → LayerEnvelope) (a : ImageAnalysis) :
    (Priorities.map (fun t => (AllVulnerabilities mrl a).Count t)).sum =
      (AllVulnerabilities mrl a).Total := by
  unfold AllVulnerabilities countAll
  simp only [Count_foldl_countPriority, Total_foldl_countPriority]
  rw [invertedPriorities_eq]
  simp only [Priorities, List.map_cons, List.map_nil, List.sum_cons, List.sum_nil,
    vulnerabiliesCounts.Count, vulnerabiliesCounts.Total, mapGet, List.foldl_nil,
    Option.getD_none]
  have hc : ∀ (x : String) (l : List String), l.count x = l.countP (fun y => y == x) :=
    fun _ _ => rfl
  simp only [hc, List.countP_cons, List.countP_nil]
  simp only [String.reduceBEq]
  simp
  ring

theorem Count_le_Total (mrl : ImageAnalysis → LayerEnvelope) (a : ImageAnalysis) (t : String)
    (ht : t ∈ Priorities) :
    (AllVulnerabilities mrl a).Count t ≤ (AllVulnerabilities mrl a).Total := by
  have hsum := sum_Count_eq_Total mrl a
  have hnn := Count_nonneg mrl a
  simp only [Priorities, List.map_cons, List.map_nil, List.sum_cons, List.sum_nil] at hsum
  have h1 := hnn "Unknown"
  have h2 := hnn "Negligible"
  have h3 := hnn "Low"
  have h4 := hnn "Medium"
  have h5 := hnn "High"
  have h6 := hnn "Critical"
  have h7 := hnn "Defcon1"
  simp only [Priorities, List.mem_cons, List.mem_singleton, List.not_mem_nil, or_false] at ht
  rcases ht with rfl | rfl | rfl | rfl | rfl | rfl | rfl <;> omega

/-! ## Totals, distinct names and the undeduplicated grouping -/

theorem countP_or_disjoint {α : Type} (l : List α) (P Q : α → Bool)
    (hdisj : ∀ x, P x = true → Q x = true → False) :
    l.countP (fun x => P x || Q x) = l.countP P + l.countP Q := by
  induction l with
  | nil => rfl
  | cons x l ih =>
    simp only [List.countP_cons, ih]
    cases hP : P x <;> cases hQ : Q x
    · simp
    · simp; omega
    · simp; omega
    · exact absurd hQ (fun h => hdisj x hP h)

theorem sum_countP_tiers (ps : List Priority) (hps : ps.Nodup) (es : List (String × String)) :
    (ps.map (fun p => (es.countP (fun e => e.2 = p) : Int))).sum =
      (es.countP (fun e => decide (e.2 ∈ ps)) : Int) := by
  induction ps with
  | nil => simp
  | cons p ps ih =>
    have hnd := List.nodup_cons.mp hps
    rw [List.map_cons, List.sum_cons, ih hnd.2]
    have hsplit : es.countP (fun e => decide (e.2 ∈ p :: ps)) =
        es.countP (fun e => decide (e.2 = p) || decide (e.2 ∈ ps)) := by
      congr 1
      funext e
      simp [List.mem_cons]
    rw [hsplit, countP_or_disjoint]
    · push_cast; rfl
    · intro e h1 h2
      simp only [decide_eq_true_eq] at h1 h2
      exact hnd.1 (h1 ▸ h2)

theorem Total_eq_countP (mrl : ImageAnalysis → LayerEnvelope) (a : ImageAnalysis) :
    (AllVulnerabilities mrl a).Total =
      ((collectSeverities (mrl a).Layer.Features).countP
        (fun e => decide (e.2 ∈ Priorities)) : Int) := by
  unfold AllVulnerabilities countAll
  simp only []
  rw [Total_foldl_countPriority, sum_countP_tiers _ invertedPriorities_nodup]
  have h0 : vulnerabiliesCounts.Total [] = 0 := rfl
  rw [h0, zero_add]
  congr 2
  funext e
  simp only [mem_invertedPriorities]

theorem Count_eq_countP (mrl : ImageAnalysis → LayerEnvelope) (a : ImageAnalysis)
    (p : Priority) (hp : p ∈ Priorities) :
    (AllVulnerabilities mrl a).Count p =
      ((collectSeverities (mrl a).Layer.Features).countP (fun e => decide (e.2 = p)) : Int) := by
  unfold AllVulnerabilities countAll
  simp only []
  rw [Count_foldl_countPriority,
    List.count_eq_one_of_mem invertedPriorities_nodup ((mem_invertedPriorities p).mpr hp)]
  simp [vulnerabiliesCounts.Count, mapGet]

theorem firstSeverity_eq_none_iff (vs : List Vulnerability) (n : String) :
    firstSeverity vs n = none ↔ n ∉ vs.map (fun v => v.Name) := by
  induction vs with
  | nil => simp [firstSeverity]
  | cons v vs ih =>
    by_cases hn : v.Name = n
    · simp [firstSeverity, hn]
    · have hn' : ¬ n = v.Name := fun h => hn h.symm
      simp [firstSeverity, hn, hn', ih]

theorem firstSeverity_some_exists (vs : List Vulnerability) (n s : String)
    (h : firstSeverity vs n = some s) : ∃ v ∈ vs, v.Name = n ∧ v.Severity = s := by
  induction vs with
  | nil => simp [firstSeverity] at h
  | cons v vs ih =>
    by_cases hn : v.Name = n
    · simp only [firstSeverity, hn, if_true, Option.some.injEq] at h
      exact ⟨v, List.mem_cons_self _ _, hn, h⟩
    · simp only [firstSeverity, hn, if_false] at h
      obtain ⟨w, hw, hw2⟩ := ih h
      exact ⟨w, List.mem_cons_of_mem _ hw, hw2⟩

theorem keys_collectSeverities (fs : List Feature) (n : String) :
    n ∈ (collectSeverities fs).map Prod.fst ↔
      n ∈ (layerVulnerabilities fs).map (fun v => v.Name) := by
  have h1 := mapGet_eq_none_iff (collectSeverities fs) n
  have h2 := firstSeverity_eq_none_iff (layerVulnerabilities fs) n
  rw [mapGet_collectSeverities] at h1
  constructor
  · intro h
    by_contra hc
    exact (h1.mp (h2.mpr hc)) h
  · intro h
    by_contra hc
    exact (h2.mp (h1.mpr hc)) h

theorem length_collectSeverities (fs : List Feature) :
    (collectSeverities fs).length =
      ((layerVulnerabilities fs).map (fun v => v.Name)).toFinset.card := by
  rw [← List.length_map (collectSeverities fs) Prod.fst,
    ← List.toFinset_card_of_nodup (nodup_collectSeverities fs)]
  congr 1
  ext n
  simp only [List.mem_toFinset]
  exact keys_collectSeverities fs n

theorem all_canonical_iff (fs : List Feature) :
    (∀ e ∈ collectSeverities fs, e.2 ∈ Priorities) ↔
      ∀ n ∈ (layerVulnerabilities fs).map (fun v => v.Name),
        ∃ s ∈ Priorities, firstSeverity (layerVulnerabilities fs) n = some s := by
  constructor
  · intro h n hn
    have hkey := (keys_collectSeverities fs n).mpr hn
    obtain ⟨e, he, rfl⟩ := List.mem_map.mp hkey
    refine ⟨e.2, h e he, ?_⟩
    rw [← mapGet_collectSeverities]
    exact mapGet_of_mem _ (nodup_collectSeverities fs) e he
  · intro h e he
    have hkey : e.1 ∈ (collectSeverities fs).map Prod.fst := List.mem_map_of_mem Prod.fst he
    obtain ⟨s, hs, hfirst⟩ := h e.1 ((keys_collectSeverities fs e.1).mp hkey)
    have hget := mapGet_of_mem _ (nodup_collectSeverities fs) e he
    rw [mapGet_collectSeverities, hfirst] at hget
    simp only [Option.some.injEq] at hget
    exact hget ▸ hs

theorem Total_eq_card_iff (mrl : ImageAnalysis → LayerEnvelope) (a : ImageAnalysis) :
    (AllVulnerabilities mrl a).Total =
        ((((layerVulnerabilities (mrl a).Layer.Features).map
          (fun v => v.Name)).toFinset.card : Nat) : Int) ↔
      ∀ n ∈ (layerVulnerabilities (mrl a).Layer.Features).map (fun v => v.Name),
        ∃ s ∈ Priorities,
          firstSeverity (layerVulnerabilities (mrl a).Layer.Features) n = some s := by
  rw [Total_eq_countP, ← length_collectSeverities, ← all_canonical_iff]
  rw [Int.ofNat_inj, List.countP_eq_length]
  simp only [decide_eq_true_eq]

theorem Total_le_card (mrl : ImageAnalysis → LayerEnvelope) (a : ImageAnalysis) :
    (AllVulnerabilities mrl a).Total ≤
      ((((layerVulnerabilities (mrl a).Layer.Features).map
        (fun v => v.Name)).toFinset.card : Nat) : Int) := by
  rw [Total_eq_countP, ← length_collectSeverities]
  exact_mod_cast List.countP_le_length _

theorem Total_of_canonical (mrl : ImageAnalysis → LayerEnvelope) (a : ImageAnalysis)
    (hall : ∀ v ∈ layerVulnerabilities (mrl a).Layer.Features, v.Severity ∈ Priorities) :
    (AllVulnerabilities mrl a).Total =
      ((((layerVulnerabilities (mrl a).Layer.Features).map
        (fun v => v.Name)).toFinset.card : Nat) : Int) := by
  rw [Total_eq_card_iff]
  intro n hn
  cases hfirst : firstSeverity (layerVulnerabilities (mrl a).Layer.Features) n with
  | none => exact absurd hn ((firstSeverity_eq_none_iff _ n).mp hfirst)
  | some s =>
    obtain ⟨v, hv, _, hsev⟩ := firstSeverity_some_exists _ n s hfirst
    exact ⟨s, hsev ▸ hall v hv, rfl⟩

theorem Total_perm (mrl mrl' : ImageAnalysis → LayerEnvelope) (a a' : ImageAnalysis)
    (hperm : List.Perm (layerVulnerabilities (mrl' a').Layer.Features)
      (layerVulnerabilities (mrl a).Layer.Features))
    (hall : ∀ v ∈ layerVulnerabilities (mrl a).Layer.Features, v.Severity ∈ Priorities) :
    (AllVulnerabilities mrl' a').Total = (AllVulnerabilities mrl a).Total := by
  rw [Total_of_canonical mrl a hall,
    Total_of_canonical mrl' a' (fun v hv => hall v (hperm.subset hv))]
  congr 2
  ext n
  simp only [List.mem_toFinset]
  exact (hperm.map _).mem_iff

theorem layerVulnerabilities_perm (fs fs' : List Feature) (h : List.Perm fs' fs) :
    List.Perm (layerVulnerabilities fs') (layerVulnerabilities fs) := by
  induction h with
  | nil => exact List.Perm.refl _
  | cons f _ ih => exact List.Perm.append_left _ ih
  | swap f g l =>
    simp only [layerVulnerabilities]
    rw [← List.append_assoc, ← List.append_assoc]
    exact List.Perm.append_right _ List.perm_append_comm
  | trans _ _ ih1 ih2 => exact ih1.trans ih2

theorem layerVulnerabilities_perm_inner (fs fs' : List Feature)
    (h : List.Forall₂ (fun f f' => List.Perm f'.Vulnerabilities f.Vulnerabilities) fs fs') :
    List.Perm (layerVulnerabilities fs') (layerVulnerabilities fs) := by
  induction h with
  | nil => exact List.Perm.refl _
  | cons hf _ ih => exact List.Perm.append hf ih

/-- C17: `Total()` of `AllVulnerabilities` is at most the number of distinct
vulnerability names of the most recent layer, with equality exactly when the
first-seen severity of every name is a canonical tier; when every severity of
the layer is a canonical tier the total is the number of distinct names and is
the same for every reordering of the features and of the vulnerabilities
inside the features; the per-tier counts can change under such a reordering. -/
theorem Total_distinct_names (mrl : ImageAnalysis → LayerEnvelope) (a : ImageAnalysis) :
    (AllVulnerabilities mrl a).Total ≤
      ((((layerVulnerabilities (mrl a).Layer.Features).map
        (fun v => v.Name)).toFinset.card : Nat) : Int) ∧
    ((AllVulnerabilities mrl a).Total =
        ((((layerVulnerabilities (mrl a).Layer.Features).map
          (fun v => v.Name)).toFinset.card : Nat) : Int) ↔
      ∀ n ∈ (layerVulnerabilities (mrl a).Layer.Features).map (fun v => v.Name),
        ∃ s ∈ Priorities,
          firstSeverity (layerVulnerabilities (mrl a).Layer.Features) n = some s) ∧
    ((∀ f ∈ (mrl a).Layer.Features, ∀ v ∈ f.Vulnerabilities, v.Severity ∈ Priorities) →
      (AllVulnerabilities mrl a).Total =
        ((((layerVulnerabilities (mrl a).Layer.Features).map
          (fun v => v.Name)).toFinset.card : Nat) : Int) ∧
      (∀ (mrl' : ImageAnalysis → LayerEnvelope) (a' : ImageAnalysis),
        List.Perm (mrl' a').Layer.Features (mrl a).Layer.Features →
          (AllVulnerabilities mrl' a').Total = (AllVulnerabilities mrl a).Total) ∧
      (∀ (mrl' : ImageAnalysis → LayerEnvelope) (a' : ImageAnalysis),
        List.Forall₂ (fun f f' => List.Perm f'.Vulnerabilities f.Vulnerabilities)
            (mrl a).Layer.Features (mrl' a').Layer.Features →
          (AllVulnerabilities mrl' a').Total = (AllVulnerabilities mrl a).Total)) ∧
    (List.Perm (lastLayer twoSeveritiesSwapped).Layer.Features
        (lastLayer twoSeverities).Layer.Features ∧
      (AllVulnerabilities lastLayer twoSeverities).Count "High" = 1 ∧
      (AllVulnerabilities lastLayer twoSeveritiesSwapped).Count "High" = 0) := by
  refine ⟨Total_le_card mrl a, Total_eq_card_iff mrl a, ?_, ?_⟩
  · intro hall
    have hall' : ∀ v ∈ layerVulnerabilities (mrl a).Layer.Features,
        v.Severity ∈ Priorities := by
      intro v hv
      have hmem : ∀ (fs : List Feature), v ∈ layerVulnerabilities fs →
          ∃ f ∈ fs, v ∈ f.Vulnerabilities := by
        intro fs
        induction fs with
        | nil => intro h; simp [layerVulnerabilities] at h
        | cons f fs ih =>
          intro h
          rw [layerVulnerabilities, List.mem_append] at h
          rcases h with h | h
          · exact ⟨f, List.mem_cons_self _ _, h⟩
          · obtain ⟨g, hg, hv2⟩ := ih h
            exact ⟨g, List.mem_cons_of_mem _ hg, hv2⟩
      obtain ⟨f, hf, hvf⟩ := hmem _ hv
      exact hall f hf v hvf
    refine ⟨Total_of_canonical mrl a hall', ?_, ?_⟩
    · intro mrl' a' hperm
      exact Total_perm mrl mrl' a a' (layerVulnerabilities_perm _ _ hperm) hall'
    · intro mrl' a' hinner
      exact Total_perm mrl mrl' a a' (layerVulnerabilities_perm_inner _ _ hinner) hall'
  · refine ⟨?_, by decide, by decide⟩
    exact List.Perm.swap _ _ _

/-- Witness of C17: `twoSeverities` has canonical severities only, and swapping
its two features leaves the total unchanged. -/
theorem Total_distinct_names_witness :
    (AllVulnerabilities lastLayer twoSeveritiesSwapped).Total =
      (AllVulnerabilities lastLayer twoSeverities).Total :=
  ((Total_distinct_names lastLayer twoSeverities).2.2.1 (by decide)).2.1
    lastLayer twoSeveritiesSwapped (List.Perm.swap _ _ _)

/-! ## Deduplicated counts against the grouping -/

theorem countP_recordFirst_le (Q : String → Bool) (m : List (String × String))
    (v : Vulnerability) :
    (recordFirst m v).countP (fun e => Q e.2) ≤
      m.countP (fun e => Q e.2) + (if Q v.Severity = true then 1 else 0) := by
  unfold recordFirst
  cases h : mapGet m v.Name with
  | some s => simp
  | none =>
    simp only [mapSet_of_none m _ _ h, List.countP_append, List.countP_cons, List.countP_nil]
    simp

theorem countP_foldl_recordFirst_le (Q : String → Bool) (vs : List Vulnerability)
    (m : List (String × String)) :
    (vs.foldl recordFirst m).countP (fun e => Q e.2) ≤
      m.countP (fun e => Q e.2) + vs.countP (fun v => Q v.Severity) := by
  induction vs generalizing m with
  | nil => simp
  | cons v vs ih =>
    rw [List.foldl_cons, List.countP_cons]
    have h1 := ih (recordFirst m v)
    have h2 := countP_recordFirst_le Q m v
    omega

theorem countP_collectSeverities_le (Q : String → Bool) (fs : List Feature) :
    (collectSeverities fs).countP (fun e => Q e.2) ≤
      (layerVulnerabilities fs).countP (fun v => Q v.Severity) := by
  rw [collectSeverities_eq]
  have h := countP_foldl_recordFirst_le Q (layerVulnerabilities fs) []
  simpa using h

theorem entry_length (mrl : ImageAnalysis → LayerEnvelope) (a : ImageAnalysis) (s : String) :
    ((mapGet (vulnerabilities mrl a) s).getD []).length =
      (layerVulnerabilities (mrl a).Layer.Features).countP (fun v => v.Severity = s) := by
  rw [vulnerabilities_eq, mapGet_foldl_groupOne]
  have hmap : ((labelledVulnerabilities (mrl a).Layer.Features).filter
      (fun x => decide (x.Vulnerability.Severity = s))).length =
      (layerVulnerabilities (mrl a).Layer.Features).countP (fun v => v.Severity = s) := by
    rw [← labelled_map_vulnerability, List.countP_map, List.countP_eq_length_filter]
    rfl
  simp only [mapGet]
  by_cases hnil : (labelledVulnerabilities (mrl a).Layer.Features).filter
      (fun x => decide (x.Vulnerability.Severity = s)) = []
  · rw [← hmap]
    simp [hnil]
  · rw [← hmap]
    simp [hnil]

theorem sorted_lengths (fs : List Feature) :
    ((affectedFeatures fs).map (fun f => (reorder f.Vulnerabilities).length)).sum =
      (layerVulnerabilities fs).countP (fun v => decide (v.Severity ∈ Priorities)) := by
  induction fs with
  | nil => rfl
  | cons f fs ih =>
    have hlen : (reorder f.Vulnerabilities).length =
        f.Vulnerabilities.countP (fun v => decide (v.Severity ∈ Priorities)) := by
      rw [(reorder_perm f.Vulnerabilities).length_eq, List.countP_eq_length_filter]
    rw [layerVulnerabilities, List.countP_append, ← ih, ← hlen]
    unfold affectedFeatures
    by_cases h : 0 < f.Vulnerabilities.length
    · simp [List.filter_cons, h]
    · have hnil : f.Vulnerabilities = [] := by
        cases hv : f.Vulnerabilities with
        | nil => rfl
        | cons v vs => rw [hv] at h; simp at h
      have hr : reorder ([] : List Vulnerability) = [] := by decide
      simp [List.filter_cons, hnil, hr]

/-- C18: for every canonical tier `p`, the count of `AllVulnerabilities` for
`p` is at most the length of the entry for `p` in `vulnerabilities(analysis)`,
and `Total()` is at most the number of vulnerabilities listed across the
features returned by `sortedVulnerabilities(analysis)`. -/
theorem counts_le_grouping (mrl : ImageAnalysis → LayerEnvelope) (a : ImageAnalysis) :
    (∀ p ∈ Priorities,
      (AllVulnerabilities mrl a).Count p ≤
        (((mapGet (vulnerabilities mrl a) p).getD []).length : Int)) ∧
    (AllVulnerabilities mrl a).Total ≤
      ((((sortedVulnerabilities mrl a).map (fun f => f.Vulnerabilities.length)).sum : Nat)
        : Int) := by
  constructor
  · intro p hp
    rw [Count_eq_countP mrl a p hp, entry_length]
    exact_mod_cast countP_collectSeverities_le (fun s => decide (s = p)) _
  · rw [Total_eq_countP, sortedVulnerabilities_eq, List.map_map]
    have h := sorted_lengths (mrl a).Layer.Features
    have h2 := countP_collectSeverities_le (fun s => decide (s ∈ Priorities))
      (mrl a).Layer.Features
    have h3 : ((affectedFeatures (mrl a).Layer.Features).map
        ((fun f => f.Vulnerabilities.length) ∘
          fun f => { f with Vulnerabilities := reorder f.Vulnerabilities })).sum =
        ((affectedFeatures (mrl a).Layer.Features).map
          (fun f => (reorder f.Vulnerabilities).length)).sum := rfl
    rw [h3, h]
    exact_mod_cast h2

/-- Witness of C18 on the layer `mixed`, at the tier Critical: the count 2 is
at most the length 2 of the entry. -/
theorem counts_le_grouping_witness :
    (AllVulnerabilities lastLayer mixed).Count "Critical" ≤
      (((mapGet (vulnerabilities lastLayer mixed) "Critical").getD []).length : Int) :=
  (counts_le_grouping lastLayer mixed).1 "Critical" (by decide)

/-! ## Idempotence of `sortedVulnerabilities` -/

theorem tierMajor_congr (qs : List Priority) (xs ys : List Vulnerability)
    (h : ∀ p ∈ qs, xs.filter (fun v => decide (v.Severity = p)) =
      ys.filter (fun v => decide (v.Severity = p))) :
    tierMajor qs xs = tierMajor qs ys := by
  induction qs with
  | nil => rfl
  | cons q qs ih =>
    rw [tierMajor, tierMajor, h q (List.mem_cons_self _ _),
      ih (fun p hp => h p (List.mem_cons_of_mem _ hp))]

theorem reorder_reorder (vs : List Vulnerability) : reorder (reorder vs) = reorder vs := by
  rw [reorder_eq (reorder vs), reorder_eq vs]
  exact tierMajor_congr _ _ _
    (fun p hp => filter_tierMajor _ invertedPriorities_nodup vs p hp)

/-- C19: if the most recent layer of `a'` holds exactly the features returned
by `sortedVulnerabilities(a)`, and every one of them has a non-empty
vulnerability list, then `sortedVulnerabilities(a')` equals
`sortedVulnerabilities(a)`. -/
theorem sortedVulnerabilities_idempotent (mrl mrl' : ImageAnalysis → LayerEnvelope)
    (a a' : ImageAnalysis)
    (h : (mrl' a').Layer.Features = sortedVulnerabilities mrl a)
    (hne : ∀ f ∈ sortedVulnerabilities mrl a, f.Vulnerabilities ≠ []) :
    sortedVulnerabilities mrl' a' = sortedVulnerabilities mrl a := by
  rw [sortedVulnerabilities_eq mrl' a', h]
  have haff : affectedFeatures (sortedVulnerabilities mrl a) = sortedVulnerabilities mrl a := by
    unfold affectedFeatures
    rw [List.filter_eq_self]
    intro f hf
    have := hne f hf
    simp only [decide_eq_true_eq]
    exact List.length_pos.mpr this
  rw [haff]
  conv_rhs => rw [← List.map_id (sortedVulnerabilities mrl a)]
  apply List.map_congr_left
  intro nf hnf
  obtain ⟨f, _, _, rfl⟩ := (mem_sortedVulnerabilities mrl a nf).mp hnf
  simp only [id, reorder_reorder]

/-- Witness of C19 on the end-to-end scenario: sorting the sorted view again
gives the same view. -/
theorem sortedVulnerabilities_idempotent_witness :
    sortedVulnerabilities lastLayer (mkAnalysis (sortedVulnerabilities lastLayer scenario)) =
      sortedVulnerabilities lastLayer scenario :=
  sortedVulnerabilities_idempotent lastLayer lastLayer scenario
    (mkAnalysis (sortedVulnerabilities lastLayer scenario)) rfl (by decide)

/-! ## The relative counts of a layer of two hundred names -/

theorem foldl_recordFirst_of_nodup (vs : List Vulnerability) (m : List (String × String))
    (hnd : (m.map Prod.fst ++ vs.map (fun v => v.Name)).Nodup) :
    vs.foldl recordFirst m = m ++ vs.map (fun v => (v.Name, v.Severity)) := by
  induction vs generalizing m with
  | nil => simp
  | cons v vs ih =>
    have hnot : v.Name ∉ m.map Prod.fst := by
      intro hmem
      have hdisj := (List.nodup_append.mp hnd).2.2
      exact hdisj hmem (List.mem_cons_self _ _)
    have hstep : recordFirst m v = m ++ [(v.Name, v.Severity)] := by
      unfold recordFirst
      rw [(mapGet_eq_none_iff m v.Name).mpr hnot]
      exact mapSet_of_none m _ _ ((mapGet_eq_none_iff m v.Name).mpr hnot)
    rw [List.foldl_cons, hstep, ih]
    · simp
    · have hperm : List.Perm
          ((m ++ [(v.Name, v.Severity)]).map Prod.fst ++ vs.map (fun v => v.Name))
          (m.map Prod.fst ++ (v :: vs).map (fun v => v.Name)) := by
        simp
      exact hperm.nodup_iff.mpr hnd

theorem collectSeverities_of_nodup (fs : List Feature)
    (hnd : ((layerVulnerabilities fs).map (fun v => v.Name)).Nodup) :
    collectSeverities fs = (layerVulnerabilities fs).map (fun v => (v.Name, v.Severity)) := by
  rw [collectSeverities_eq, foldl_recordFirst_of_nodup _ [] (by simpa using hnd)]
  simp

theorem twoHundred_nodup :
    ((layerVulnerabilities (lastLayer twoHundred).Layer.Features).map
      (fun v => v.Name)).Nodup := by
  apply List.Nodup.of_map nameCode
  decide

theorem twoHundred_Count (p : Priority) (hp : p ∈ Priorities) :
    (AllVulnerabilities lastLayer twoHundred).Count p =
      ((layerVulnerabilities (lastLayer twoHundred).Layer.Features).countP
        (fun v => decide (v.Severity = p)) : Int) := by
  rw [Count_eq_countP lastLayer twoHundred p hp, collectSeverities_of_nodup _ twoHundred_nodup,
    List.countP_map]
  rfl

theorem twoHundred_Total : (AllVulnerabilities lastLayer twoHundred).Total = 200 := by
  rw [Total_eq_countP, collectSeverities_of_nodup _ twoHundred_nodup, List.countP_map]
  decide

theorem map_Priorities {α : Type} (f : String → α) :
    Priorities.map f =
      [f "Unknown", f "Negligible", f "Low", f "Medium", f "High", f "Critical",
       f "Defcon1"] := rfl

theorem RelativeCount_of_counts (v : vulnerabiliesCounts) (t : String) (c T : Int)
    (hT : v.Total = T) (hc : v.Count t = c) :
    v.RelativeCount t =
      Float64.div (Float64.ceil (Float64.mul (Float64.mul
        (Float64.div (Float64.ofInt c) (Float64.ofInt T)) (Float64.ofInt 100))
        (Float64.ofInt 100))) (Float64.ofInt 100) := by
  unfold vulnerabiliesCounts.Count at hc
  unfold vulnerabiliesCounts.RelativeCount
  simp only [hc, hT]

theorem relativeCounts_seven_tiers (v : vulnerabiliesCounts) (hT : v.Total = 200)
    (hc : Priorities.map (fun t => v.Count t) = [7, 7, 7, 14, 55, 55, 55]) :
    Priorities.map (fun t => v.RelativeCount t) =
      [Float64.roundNearest false 351 100, Float64.roundNearest false 351 100,
       Float64.roundNearest false 351 100, Float64.roundNearest false 701 100,
       Float64.roundNearest false 2751 100, Float64.roundNearest false 2751 100,
       Float64.roundNearest false 2751 100] ∧
    (Priorities.map (fun t => (v.RelativeCount t).toRat)).sum =
      100 + 7 / 100 + 27 / 7036874417766400 := by
  rw [map_Priorities] at hc
  simp only [List.cons.injEq, and_true] at hc
  obtain ⟨c1, c2, c3, c4, c5, c6, c7⟩ := hc
  have e7 : Float64.div (Float64.ceil (Float64.mul (Float64.mul
      (Float64.div (Float64.ofInt 7) (Float64.ofInt 200)) (Float64.ofInt 100))
      (Float64.ofInt 100))) (Float64.ofInt 100) =
      .finite false 7903817346035220 (-51) := by decide
  have e14 : Float64.div (Float64.ceil (Float64.mul (Float64.mul
      (Float64.div (Float64.ofInt 14) (Float64.ofInt 200)) (Float64.ofInt 100))
      (Float64.ofInt 100))) (Float64.ofInt 100) =
      .finite false 7892558346966794 (-50) := by decide
  have e55 : Float64.div (Float64.ceil (Float64.mul (Float64.mul
      (Float64.div (Float64.ofInt 55) (Float64.ofInt 200)) (Float64.ofInt 100))
      (Float64.ofInt 100))) (Float64.ofInt 100) =
      .finite false 7743376609310147 (-48) := by decide
  have r351 : Float64.roundNearest false 351 100 = .finite false 7903817346035220 (-51) := by
    decide
  have r701 : Float64.roundNearest false 701 100 = .finite false 7892558346966794 (-50) := by
    decide
  have r2751 : Float64.roundNearest false 2751 100 = .finite false 7743376609310147 (-48) := by
    decide
  have v1 := (RelativeCount_of_counts v _ _ _ hT c1).trans e7
  have v2 := (RelativeCount_of_counts v _ _ _ hT c2).trans e7
  have v3 := (RelativeCount_of_counts v _ _ _ hT c3).trans e7
  have v4 := (RelativeCount_of_counts v _ _ _ hT c4).trans e14
  have v5 := (RelativeCount_of_counts v _ _ _ hT c5).trans e55
  have v6 := (RelativeCount_of_counts v _ _ _ hT c6).trans e55
  have v7 := (RelativeCount_of_counts v _ _ _ hT c7).trans e55
  constructor
  · rw [map_Priorities, v1, v2, v3, v4, v5, v6, v7, r351, r701, r2751]
  · rw [map_Priorities, v1, v2, v3, v4, v5, v6, v7]
    simp only [List.sum_cons, List.sum_nil, Float64.toRat]
    norm_num

/-- C13: on the layer `twoHundred` the counts returned by `AllVulnerabilities`
are 7, 7, 7, 14, 55, 55, 55 of a total of 200, so every tier holds an exact
percentage (3.5, 7 or 27.5 percent), and `RelativeCount` returns the float64
nearest to 3.51, 7.01 and 27.51; the seven returned values, summed over exact
arithmetic, give 100.07 + 27/7036874417766400, which is not less than 100 plus
0.01 per canonical tier. -/
theorem RelativeCount_sum_exceeds :
    (AllVulnerabilities lastLayer twoHundred).Total = 200 ∧
    Priorities.map (fun t => (AllVulnerabilities lastLayer twoHundred).Count t) =
      [7, 7, 7, 14, 55, 55, 55] ∧
    Priorities.map (fun t => (AllVulnerabilities lastLayer twoHundred).RelativeCount t) =
      [Float64.roundNearest false 351 100, Float64.roundNearest false 351 100,
       Float64.roundNearest false 351 100, Float64.roundNearest false 701 100,
       Float64.roundNearest false 2751 100, Float64.roundNearest false 2751 100,
       Float64.roundNearest false 2751 100] ∧
    (Priorities.map
        (fun t => ((AllVulnerabilities lastLayer twoHundred).RelativeCount t).toRat)).sum =
      100 + 7 / 100 + 27 / 7036874417766400 ∧
    ¬ ((Priorities.map
        (fun t => ((AllVulnerabilities lastLayer twoHundred).RelativeCount t).toRat)).sum <
      100 + (1 / 100 : ℚ) * (Priorities.length : ℚ)) := by
  have hT := twoHundred_Total
  have c1 : (AllVulnerabilities lastLayer twoHundred).Count "Unknown" = 7 := by
    rw [twoHundred_Count _ (by decide)]; decide
  have c2 : (AllVulnerabilities lastLayer twoHundred).Count "Negligible" = 7 := by
    rw [twoHundred_Count _ (by decide)]; decide
  have c3 : (AllVulnerabilities lastLayer twoHundred).Count "Low" = 7 := by
    rw [twoHundred_Count _ (by decide)]; decide
  have c4 : (AllVulnerabilities lastLayer twoHundred).Count "Medium" = 14 := by
    rw [twoHundred_Count _ (by decide)]; decide
  have c5 : (AllVulnerabilities lastLayer twoHundred).Count "High" = 55 := by
    rw [twoHundred_Count _ (by decide)]; decide
  have c6 : (AllVulnerabilities lastLayer twoHundred).Count "Critical" = 55 := by
    rw [twoHundred_Count _ (by decide)]; decide
  have c7 : (AllVulnerabilities lastLayer twoHundred).Count "Defcon1" = 55 := by
    rw [twoHundred_Count _ (by decide)]; decide
  have hc : Priorities.map (fun t => (AllVulnerabilities lastLayer twoHundred).Count t) =
      [7, 7, 7, 14, 55, 55, 55] := by
    rw [map_Priorities, c1, c2, c3, c4, c5, c6, c7]
  obtain ⟨hvals, hsum⟩ := relativeCounts_seven_tiers _ hT hc
  refine ⟨hT, hc, hvals, hsum, ?_⟩
  rw [hsum]
  norm_num [Priorities]

end Clair
